import Mathlib

/-!
Verification of the btok token-interaction layer (STB 34.101.79) of the bee2
library against its natural-language specification.

The visible source slice contains the btok test suite (`btok_test.c`) and a
few unrelated headers; the btok implementation itself (CV-certificate codec,
secure-messaging channel, BAUTH protocol) is not part of the slice.  The
operations exercised by the tests are therefore modelled from the
specification, and the claims are settled against that model.  The belt /
bign cryptographic primitives are, per the specification, external
collaborators consumed through interfaces; here they enter as abstract
function parameters (`SigScheme`, `SmPrims`, `BauthPrims`) constrained by
explicit hypotheses.

Octets are modelled as `Nat` (with range side conditions where the wire
format depends on them), octet strings as `List Nat`, and fallible
operations return `Except Err`.
-/

namespace Btok


/-- Modelled from the spec: section 7 lists the caller-visible error kinds
`Ok, BadInput, BadCert, BadSm, BadMac, BadPadding, BadLogic, BadEntropy,
BadParams`; `Ok` is the success case of `Except`. -/
inductive Err where
  | badInput
  | badCert
  | badSm
  | badMac
  | badPadding
  | badLogic
  | badEntropy
  | badParams
  deriving DecidableEq, Repr

/-- Modelled from the spec: BER-TLV length octets, "0..127 single byte, else
`81 ll` or `82 ll ll`". -/
def berLen (n : Nat) : List Nat :=
  if n ≤ 127 then [n]
  else if n ≤ 255 then [129, n]
  else [130, n / 256, n % 256]

/-- Two-octet (`81 ll`) BER length body, canonical range 128..255. -/
def parseBer81 : List Nat → Option (Nat × List Nat)
  | b :: r2 => if 128 ≤ b ∧ b ≤ 255 then some (b, r2) else none
  | [] => none

/-- Three-octet (`82 ll ll`) BER length body, canonical range 256..65535. -/
def parseBer82 : List Nat → Option (Nat × List Nat)
  | b :: c :: r2 =>
    if 256 ≤ b * 256 + c ∧ b ≤ 255 ∧ c ≤ 255 then some (b * 256 + c, r2) else none
  | _ => none

/-- Strict parser for BER-TLV length octets; rejects non-canonical forms and
returns the decoded length together with the remaining octets. -/
def parseBerLen : List Nat → Option (Nat × List Nat)
  | [] => none
  | a :: r =>
    if a ≤ 127 then some (a, r)
    else if a = 129 then parseBer81 r
    else if a = 130 then parseBer82 r
    else none

/-- A TLV data object: tag octets, canonical BER length, value octets. -/
def tlv (tag : List Nat) (v : List Nat) : List Nat :=
  tag ++ berLen v.length ++ v

/-- Drop an expected literal sequence of octets from the front. -/
def dropPre : List Nat → List Nat → Option (List Nat)
  | [], b => some b
  | _ :: _, [] => none
  | p :: ps, x :: xs => if x = p then dropPre ps xs else none

/-- Read one TLV data object with the given tag octets; returns the value and
the remaining octets. -/
def readTlv (tag : List Nat) (b : List Nat) : Option (List Nat × List Nat) :=
  match dropPre tag b with
  | none => none
  | some r1 =>
    match parseBerLen r1 with
    | none => none
    | some (L, r2) =>
      if L ≤ r2.length then some (r2.take L, r2.drop L) else none

/-! ### CV-certificate model

Modelled from the spec: section 4.2 describes a DER-like TLV with a fixed
sequence of tagged fields (profile version, authority, pubkey-OID + pubkey,
holder, effective-authorization template, validity), with the signature
over the TBS portion appended; section 3 gives `CvcFields` with its
invariants.  The `btok_cvc_t` field `pubkey_len` of the C API is modelled
as `pubkey.length`. -/

/-- Modelled from the spec: the signature scheme interface of section 6
(`sign`, `verify`, `derivePub`); bign itself is out of scope. -/
structure SigScheme where
  sign : List Nat → List Nat → List Nat
  verify : List Nat → List Nat → List Nat → Bool
  derivePub : List Nat → List Nat

/-- Parsed CV certificate fields (`btok_cvc_t`). -/
structure btok_cvc_t where
  authority : List Nat
  holder : List Nat
  from_ : List Nat
  until_ : List Nat
  hat_eid : List Nat
  hat_esign : List Nat
  pubkey : List Nat
  deriving DecidableEq, Repr

/-- Numeric value of a digit-per-octet date; on 6-octet dates with digits
`≤ 9` this order coincides with the lexicographic octet order the spec
prescribes. -/
def dateNum (d : List Nat) : Nat :=
  d.foldl (fun a x => a * 10 + x) 0

/-- Modelled from the spec: a validity date is 6 octets, one decimal digit
per octet (`YYMMDD`), with a plausible month and day. -/
def dateOk (d : List Nat) : Bool :=
  decide (d.length = 6) && d.all (fun x => decide (x ≤ 9)) &&
  decide (1 ≤ d.getD 2 0 * 10 + d.getD 3 0) &&
  decide (d.getD 2 0 * 10 + d.getD 3 0 ≤ 12) &&
  decide (1 ≤ d.getD 4 0 * 10 + d.getD 5 0) &&
  decide (d.getD 4 0 * 10 + d.getD 5 0 ≤ 31)

/-- Modelled from the spec: `authority`/`holder` are 8..12 printable ASCII
octets. -/
def nameOk (s : List Nat) : Bool :=
  decide (8 ≤ s.length) && decide (s.length ≤ 12) &&
  s.all (fun c => decide (32 ≤ c) && decide (c ≤ 126))

/-- DER of the bign parameter OID `1.2.112.0.2.0.34.101.45.3.x`, where the
last arc selects the security level. -/
def bignOid (last : Nat) : List Nat :=
  [42, 112, 0, 2, 0, 34, 101, 45, 3, last]

/-- OID content octets identifying the signature-scheme level matching a
public key of the given length (64/96/128 octets for level 128/192/256). -/
def oidOfPubkeyLen (n : Nat) : List Nat :=
  bignOid (n / 32 - 1)

/-- Modelled from the spec: `CvcCheck(fields)` is a pure validation of the
value ranges and the date ordering; scenario A further fixes that it fails
while the public key is still unset (all-zero). -/
def cvcCheckB (cvc : btok_cvc_t) : Bool :=
  nameOk cvc.authority && nameOk cvc.holder &&
  dateOk cvc.from_ && dateOk cvc.until_ &&
  decide (dateNum cvc.from_ ≤ dateNum cvc.until_) &&
  decide (cvc.hat_eid.length = 5) &&
  cvc.hat_eid.all (fun x => decide (x ≤ 255)) &&
  decide (cvc.hat_esign.length = 2) &&
  cvc.hat_esign.all (fun x => decide (x ≤ 255)) &&
  (decide (cvc.pubkey.length = 64) || decide (cvc.pubkey.length = 96) ||
    decide (cvc.pubkey.length = 128)) &&
  cvc.pubkey.all (fun x => decide (x ≤ 255)) &&
  cvc.pubkey.any (fun x => decide (x ≠ 0))

/-- `btokCVCCheck`: pure validation of certificate fields. -/
def btokCVCCheck (cvc : btok_cvc_t) : Except Err Unit :=
  if cvcCheckB cvc then .ok () else .error .badInput

/-- Value octets of the TBS (to-be-signed) portion of a CV certificate. -/
def cvcTbsContent (cvc : btok_cvc_t) : List Nat :=
  tlv [95, 41] [0] ++
  tlv [66] cvc.authority ++
  tlv [127, 73] (tlv [6] (oidOfPubkeyLen cvc.pubkey.length) ++ cvc.pubkey) ++
  tlv [95, 32] cvc.holder ++
  tlv [127, 76] (cvc.hat_eid ++ cvc.hat_esign) ++
  tlv [95, 37] cvc.from_ ++
  tlv [95, 36] cvc.until_

/-- TBS (to-be-signed) portion of a CV certificate. -/
def cvcTbs (cvc : btok_cvc_t) : List Nat :=
  tlv [127, 78] (cvcTbsContent cvc)

/-- Modelled from the spec: `CvcWrap(fields, signerPriv)` validates the
fields, serializes the TBS portion, signs it and appends the signature,
all inside the outer certificate TLV.  (The C length-probe and
derive-pubkey conveniences of `btokCVCWrap` are not needed by the
claims.) -/
def btokCVCWrap (sig : SigScheme) (cvc : btok_cvc_t) (privkey : List Nat) :
    Except Err (List Nat) :=
  if cvcCheckB cvc then
    .ok (tlv [127, 33] (cvcTbs cvc ++ tlv [95, 55] (sig.sign privkey (cvcTbs cvc))))
  else .error .badInput

/-- Modelled from the spec: `CvcLen(bytes, maxLen)` parses the outer TLV
header and returns the encoded length, or an invalid sentinel (`none`,
standing for `SIZE_MAX`) when the header is malformed or the declared
length exceeds `maxLen`. -/
def btokCVCLen (der : List Nat) (count : Nat) : Option Nat :=
  match dropPre [127, 33] (der.take count) with
  | none => none
  | some rest =>
    match parseBerLen rest with
    | some (L, r) =>
      if L ≤ r.length then some (2 + (berLen L).length + L) else none
    | none => none

/-- Lift an `Option` into `Except` with the given error. -/
def liftO (e : Err) : Option α → Except Err α
  | none => .error e
  | some a => .ok a

/-- Modelled from the spec: `CvcUnwrap(bytes, verifierPubKey?)` strictly
parses the TLV structure, validates the parsed fields, and, when a
verifier key is supplied, verifies the signature over the TBS portion;
with no key it parses only. -/
def btokCVCUnwrap (sig : SigScheme) (cert : List Nat) (pub : Option (List Nat)) :
    Except Err btok_cvc_t := do
  let (body, r0) ← liftO .badCert (readTlv [127, 33] cert)
  if r0 ≠ [] then throw .badCert
  let (tbsv, r1) ← liftO .badCert (readTlv [127, 78] body)
  let (sigv, r2) ← liftO .badCert (readTlv [95, 55] r1)
  if r2 ≠ [] then throw .badCert
  let (pv, t1) ← liftO .badCert (readTlv [95, 41] tbsv)
  if pv ≠ [0] then throw .badCert
  let (auth, t2) ← liftO .badCert (readTlv [66] t1)
  let (pkb, t3) ← liftO .badCert (readTlv [127, 73] t2)
  let (oid, pk) ← liftO .badCert (readTlv [6] pkb)
  let (hold, t4) ← liftO .badCert (readTlv [95, 32] t3)
  let (hat, t5) ← liftO .badCert (readTlv [127, 76] t4)
  let (fromv, t6) ← liftO .badCert (readTlv [95, 37] t5)
  let (untilv, t7) ← liftO .badCert (readTlv [95, 36] t6)
  if t7 ≠ [] then throw .badCert
  if hat.length ≠ 7 then throw .badCert
  if oid ≠ oidOfPubkeyLen pk.length then throw .badCert
  let cvc : btok_cvc_t :=
    ⟨auth, hold, fromv, untilv, hat.take 5, hat.drop 5, pk⟩
  if ¬ cvcCheckB cvc then throw .badCert
  match pub with
  | none => pure cvc
  | some vk =>
    if sig.verify vk (tlv [127, 78] tbsv) sigv then pure cvc else throw .badCert

/-- Modelled from the spec: `CvcVal(child, parent, nowOrNull)` verifies the
child under the parent public key, enforces name chaining, and, when a
date is supplied, enforces `from ≤ now ≤ until` (date failure is
`BadCert`). -/
def btokCVCVal (sig : SigScheme) (cert certa : List Nat) (date : Option (List Nat)) :
    Except Err btok_cvc_t := do
  let cvca ← btokCVCUnwrap sig certa none
  let cvc ← btokCVCUnwrap sig cert (some cvca.pubkey)
  if cvc.authority ≠ cvca.holder then throw .badCert
  else
    match date with
    | none => pure cvc
    | some d =>
      if ¬ dateOk d then throw .badInput
      else if dateNum d < dateNum cvc.from_ ∨ dateNum cvc.until_ < dateNum d then
        throw .badCert
      else pure cvc

/-- Modelled from the spec: `CvcIss(subjectFields, issuerCert, issuerPriv)`
is `CvcWrap` after validating the issuer certificate length (via `CvcLen`),
the issuer private-key length against the issuer level, the
`subject.authority == issuer.holder` chain, and level compatibility. -/
def btokCVCIss (sig : SigScheme) (cvc : btok_cvc_t) (certa : List Nat)
    (certa_len : Nat) (privkeya : List Nat) (privkeya_len : Nat) :
    Except Err (List Nat) :=
  if btokCVCLen certa certa_len ≠ some certa_len then throw .badInput
  else do
  let cvca ← btokCVCUnwrap sig (certa.take certa_len) none
  if privkeya_len ≠ cvca.pubkey.length / 2 then throw .badInput
  else if privkeya.length ≠ privkeya_len then throw .badInput
  else if cvc.authority ≠ cvca.holder then throw .badCert
  else if cvca.pubkey.length < cvc.pubkey.length then throw .badParams
  else btokCVCWrap sig cvc privkeya

/-- The encoded certificate produced by a successful `btokCVCWrap`. -/
def cvcCert (sig : SigScheme) (cvc : btok_cvc_t) (privkey : List Nat) : List Nat :=
  tlv [127, 33] (cvcTbs cvc ++ tlv [95, 55] (sig.sign privkey (cvcTbs cvc)))

/-! ### Concrete instantiations used by the witnesses -/

/-- A degenerate signature scheme: constant 48-octet signatures that always
verify, with a constant 64-octet public key. -/
def wSig : SigScheme where
  sign := fun _ _ => List.replicate 48 1
  verify := fun _ _ _ => true
  derivePub := fun _ => List.replicate 64 2

def wFrom : List Nat := [2, 2, 0, 7, 0, 7]

def wUntil : List Nat := [9, 9, 0, 7, 0, 7]

def wPriv : List Nat := List.replicate 32 3

/-- Concrete root-certificate fields (names `BYCA0000`). -/
def wCvc0 : btok_cvc_t :=
  ⟨[66, 89, 67, 65, 48, 48, 48, 48], [66, 89, 67, 65, 48, 48, 48, 48],
   wFrom, wUntil, List.replicate 5 238, List.replicate 2 119, List.replicate 64 2⟩

/-- Concrete child-certificate fields (authority `BYCA0000`, holder
`BYCA1000`). -/
def wCvc1 : btok_cvc_t :=
  ⟨[66, 89, 67, 65, 48, 48, 48, 48], [66, 89, 67, 65, 49, 48, 48, 48],
   wFrom, wUntil, List.replicate 5 221, List.replicate 2 51, List.replicate 64 2⟩

/-- Scenario-A root fields with 12-octet names (`BYCA00000000`). -/
def cvc9full (pk : List Nat) : btok_cvc_t :=
  ⟨[66, 89, 67, 65, 48, 48, 48, 48, 48, 48, 48, 48],
   [66, 89, 67, 65, 48, 48, 48, 48, 48, 48, 48, 48],
   wFrom, wUntil, List.replicate 5 238, List.replicate 2 119, pk⟩

/-- Scenario-A root fields after shortening both names to `BYCA0000`. -/
def cvc9short (pk : List Nat) : btok_cvc_t :=
  ⟨[66, 89, 67, 65, 48, 48, 48, 48], [66, 89, 67, 65, 48, 48, 48, 48],
   wFrom, wUntil, List.replicate 5 238, List.replicate 2 119, pk⟩

/-- A degenerate level-256 signature scheme: constant 96-octet signatures
that always verify, with a constant 128-octet public key. -/
def wSig96 : SigScheme where
  sign := fun _ _ => List.replicate 96 1
  verify := fun _ _ _ => true
  derivePub := fun _ => List.replicate 128 2

/-! ### APDU model

Modelled from the spec: section 4.1 gives the ISO-7816 command/response
encodings in short and extended length forms, with the canonical-form
round-trip laws; `rdf_len = 256` uses the single short-form `Le` octet
`00`, `rdf_len = 65536` the extended two-octet `00 00`. -/

/-- Command APDU (`apdu_cmd_t`): `cla, ins, p1, p2`, command data field,
expected response length. -/
structure apdu_cmd_t where
  cla : Nat
  ins : Nat
  p1 : Nat
  p2 : Nat
  cdf : List Nat
  rdf_len : Nat
  deriving DecidableEq, Repr

/-- Response APDU (`apdu_resp_t`): response data field and status word. -/
structure apdu_resp_t where
  sw1 : Nat
  sw2 : Nat
  rdf : List Nat
  deriving DecidableEq, Repr

/-- Octet-range and length validity of a command APDU. -/
def cmdValid (c : apdu_cmd_t) : Bool :=
  decide (c.cla ≤ 255) && decide (c.ins ≤ 255) && decide (c.p1 ≤ 255) &&
  decide (c.p2 ≤ 255) && c.cdf.all (fun x => decide (x ≤ 255)) &&
  decide (c.cdf.length ≤ 65535) && decide (c.rdf_len ≤ 65536)

/-- Octet-range and length validity of a response APDU. -/
def respValid (r : apdu_resp_t) : Bool :=
  decide (r.sw1 ≤ 255) && decide (r.sw2 ≤ 255) &&
  r.rdf.all (fun x => decide (x ≤ 255)) && decide (r.rdf.length ≤ 65536)

/-- Canonical wire encoding of a command APDU (short form exactly when both
`|cdf| ≤ 255` and `rdf_len ≤ 256`). -/
def apduCmdEncode (c : apdu_cmd_t) : List Nat :=
  [c.cla, c.ins, c.p1, c.p2] ++
  (if c.cdf.length ≤ 255 ∧ c.rdf_len ≤ 256 then
    (if c.cdf = [] then [] else c.cdf.length :: c.cdf) ++
    (if c.rdf_len = 0 then [] else [c.rdf_len % 256])
  else
    (if c.cdf = [] then []
     else 0 :: (c.cdf.length / 256) :: (c.cdf.length % 256) :: c.cdf) ++
    (if c.rdf_len = 0 then []
     else if c.cdf = [] then [0, (c.rdf_len / 256) % 256, c.rdf_len % 256]
     else [(c.rdf_len / 256) % 256, c.rdf_len % 256]))

/-- Short-form tail: after the command data field, nothing or a single
`Le` octet. -/
def apduCmdDecodeLe (cla ins p1 p2 : Nat) (cdf : List Nat) (r : List Nat) :
    Except Err apdu_cmd_t :=
  match r with
  | [] => .ok ⟨cla, ins, p1, p2, cdf, 0⟩
  | [y] =>
    if y ≤ 255 then .ok ⟨cla, ins, p1, p2, cdf, if y = 0 then 256 else y⟩
    else .error .badSm
  | _ => .error .badSm

/-- Short-form body: a nonzero `Lc` octet, the data field, then the tail. -/
def apduCmdDecodeShort (cla ins p1 p2 x : Nat) (rest2 : List Nat) :
    Except Err apdu_cmd_t :=
  if x ≤ 255 ∧ x ≤ rest2.length then
    apduCmdDecodeLe cla ins p1 p2 (rest2.take x) (rest2.drop x)
  else .error .badSm

/-- Extended-form tail: nothing (case 3) or a two-octet `Le` (case 4); the
canonicity guards reject encodings that should have used the short form. -/
def apduCmdDecodeExtLe (cla ins p1 p2 : Nat) (cdf : List Nat) (lc : Nat)
    (r : List Nat) : Except Err apdu_cmd_t :=
  match r with
  | [] => if 255 < lc then .ok ⟨cla, ins, p1, p2, cdf, 0⟩ else .error .badSm
  | [y, z] =>
    if y ≤ 255 ∧ z ≤ 255 ∧
        (255 < lc ∨ 256 < (if y * 256 + z = 0 then 65536 else y * 256 + z)) then
      .ok ⟨cla, ins, p1, p2, cdf, if y * 256 + z = 0 then 65536 else y * 256 + z⟩
    else .error .badSm
  | _ => .error .badSm

/-- Extended-form body after the leading `00` marker octet. -/
def apduCmdDecodeExt (cla ins p1 p2 : Nat) (rest2 : List Nat) :
    Except Err apdu_cmd_t :=
  match rest2 with
  | [hi, lo] =>
    if hi ≤ 255 ∧ lo ≤ 255 ∧
        256 < (if hi * 256 + lo = 0 then 65536 else hi * 256 + lo) then
      .ok ⟨cla, ins, p1, p2, [],
        if hi * 256 + lo = 0 then 65536 else hi * 256 + lo⟩
    else .error .badSm
  | hi :: lo :: r3a :: rest3 =>
    if hi ≤ 255 ∧ lo ≤ 255 ∧ 1 ≤ hi * 256 + lo ∧
        hi * 256 + lo ≤ (r3a :: rest3).length then
      apduCmdDecodeExtLe cla ins p1 p2 ((r3a :: rest3).take (hi * 256 + lo))
        (hi * 256 + lo) ((r3a :: rest3).drop (hi * 256 + lo))
    else .error .badSm
  | _ => .error .badSm

/-- Body of a command APDU after the four header octets. -/
def apduCmdDecodeBody (cla ins p1 p2 : Nat) (rest : List Nat) :
    Except Err apdu_cmd_t :=
  match rest with
  | [] => .ok ⟨cla, ins, p1, p2, [], 0⟩
  | [x] =>
    if x ≤ 255 then .ok ⟨cla, ins, p1, p2, [], if x = 0 then 256 else x⟩
    else .error .badSm
  | x :: x2 :: rest2 =>
    if x = 0 then apduCmdDecodeExt cla ins p1 p2 (x2 :: rest2)
    else apduCmdDecodeShort cla ins p1 p2 x (x2 :: rest2)

/-- Strict decoder for command APDUs: accepts exactly the canonical
encodings, failing with `BadSm` otherwise. -/
def apduCmdDecode (b : List Nat) : Except Err apdu_cmd_t :=
  match b with
  | cla :: ins :: p1 :: p2 :: rest => apduCmdDecodeBody cla ins p1 p2 rest
  | _ => .error .badSm

/-- Canonical wire encoding of a response APDU: `rdf` then `sw1 sw2`. -/
def apduRespEncode (r : apdu_resp_t) : List Nat :=
  r.rdf ++ [r.sw1, r.sw2]

/-- Decoder for response APDUs: trailing status word, the prefix is `rdf`. -/
def apduRespDecode (b : List Nat) : Except Err apdu_resp_t :=
  match b.reverse with
  | s2 :: s1 :: rrdf => .ok ⟨s1, s2, rrdf.reverse⟩
  | _ => .error .badSm

/-! ### Secure Messaging model

Modelled from the spec: section 4.3.  The channel wraps commands and
responses in DO-87/DO-97/DO-8E containers keyed by the session key and the
16-octet big-endian counter.  The CTR-mode cipher and the 8-octet MAC are
the out-of-scope belt primitives, abstracted as `SmPrims` (key/counter
derivation folded into the abstract functions).  Following the spec's own
test vector D (section 8), the DO-87 value is `02 ‖ ct` with `|ct| = |cdf|`
and the MAC is computed over `CLA ‖ INS ‖ P1 ‖ P2 ‖ ctr ‖ DO-87 ‖ DO-97`
for commands and over `ctr ‖ DO-87 ‖ DO-99` (with DO-99 = `99 02 SW1 SW2`
not transmitted) for responses; the status word of a response travels as a
plain trailer. -/

/-- Abstract symmetric primitives of the SM channel: length-typed CTR
encryption/decryption and an 8-octet MAC, each taking the session key and
(for the cipher) the counter. -/
structure SmPrims where
  encF : List Nat → List Nat → List Nat → List Nat
  decF : List Nat → List Nat → List Nat → List Nat
  macF : List Nat → List Nat → List Nat

/-- SM session state: 32-octet key and 16-octet big-endian counter. -/
structure SmState where
  key : List Nat
  ctr : List Nat
  deriving DecidableEq, Repr

/-- `btokSMStart`: fresh state with the given key and a zero counter. -/
def btokSMStart (key : List Nat) : SmState :=
  ⟨key, List.replicate 16 0⟩

/-- Little-endian increment with carry on octets. -/
def ctrIncLE : List Nat → List Nat
  | [] => []
  | b :: t => if b = 255 then 0 :: ctrIncLE t else (b + 1) :: t

/-- `btokSMCtrInc`: big-endian increment of the counter. -/
def btokSMCtrInc (st : SmState) : SmState :=
  ⟨st.key, (ctrIncLE st.ctr.reverse).reverse⟩

/-- `Le` octets inside DO-97: one octet for `rdf_len ≤ 256` (`256 ↦ 00`),
two octets otherwise (`65536 ↦ 00 00`). -/
def leBytes (rdf : Nat) : List Nat :=
  if rdf ≤ 256 then [rdf % 256] else [(rdf / 256) % 256, rdf % 256]

/-- DO-87 (`87 L 02 ct`), absent when the plaintext is empty. -/
def smDo87 (p : SmPrims) (s : SmState) (x : List Nat) : List Nat :=
  if x = [] then []
  else 135 :: berLen ((p.encF s.key s.ctr x).length + 1) ++ 2 :: p.encF s.key s.ctr x

/-- DO-97 (`97 L Le`), absent when no response data is expected. -/
def smDo97 (rdf : Nat) : List Nat :=
  if rdf = 0 then [] else 151 :: berLen (leBytes rdf).length ++ leBytes rdf

/-- MAC input for a protected command. -/
def smCmdAuth (p : SmPrims) (s : SmState) (c : apdu_cmd_t) : List Nat :=
  [Nat.lor c.cla 4, c.ins, c.p1, c.p2] ++ s.ctr ++ smDo87 p s c.cdf ++ smDo97 c.rdf_len

/-- Body (command data field) of a protected command APDU:
DO-87 ‖ DO-97 ‖ DO-8E. -/
def smCmdBody (p : SmPrims) (s : SmState) (c : apdu_cmd_t) : List Nat :=
  smDo87 p s c.cdf ++ smDo97 c.rdf_len ++ 142 :: 8 :: p.macF s.key (smCmdAuth p s c)

/-- The protected command APDU before wire encoding: SM bit set in `cla`,
the SM body as data field, and an expected-response length covering the
protected response. -/
def smWrappedCmd (p : SmPrims) (s : SmState) (c : apdu_cmd_t) : apdu_cmd_t :=
  ⟨Nat.lor c.cla 4, c.ins, c.p1, c.p2, smCmdBody p s c,
   if (smCmdBody p s c).length ≤ 255 then 256 else 65536⟩

/-- `btokSMCmdWrap`: with a null state, the plain canonical encoding with
`cla` untouched; with a live state, the DO-87/97/8E protected encoding. -/
def btokSMCmdWrap (p : SmPrims) (c : apdu_cmd_t) (st : Option SmState) :
    Except Err (List Nat) :=
  if cmdValid c then
    match st with
    | none => .ok (apduCmdEncode c)
    | some s =>
      if (smCmdBody p s c).length ≤ 65535 then
        .ok (apduCmdEncode (smWrappedCmd p s c))
      else .error .badInput
  else .error .badInput

/-- Read one optional TLV data object with a one-octet tag; returns the
encoded octets, the value and the rest (all empty-prefixed when the tag
does not match). -/
def tryDO (tag : Nat) (b : List Nat) : Except Err (List Nat × List Nat × List Nat) :=
  match b with
  | t :: r1 =>
    if t = tag then
      match parseBerLen r1 with
      | none => .error .badSm
      | some (L, r2) =>
        if L ≤ r2.length then .ok (t :: berLen L ++ r2.take L, r2.take L, r2.drop L)
        else .error .badSm
    else .ok ([], [], b)
  | [] => .ok ([], [], b)

/-- Mandatory trailing DO-8E: tag `8E`, length `08`, exactly eight MAC
octets and nothing after. -/
def parse8E (r2 e87 v87 e97 v97 : List Nat) :
    Except Err (List Nat × List Nat × List Nat × List Nat × List Nat) :=
  match r2 with
  | a :: b :: rest =>
    if a = 142 ∧ b = 8 ∧ rest.length = 8 then .ok (e87, v87, e97, v97, rest)
    else .error .badSm
  | _ => .error .badSm

/-- Strict parse of a protected command body: optional DO-87, optional
DO-97, mandatory trailing DO-8E with an 8-octet MAC, nothing after. -/
def parseBody (b : List Nat) :
    Except Err (List Nat × List Nat × List Nat × List Nat × List Nat) := do
  let (e87, v87, r1) ← tryDO 135 b
  let (e97, v97, r2) ← tryDO 151 r1
  parse8E r2 e87 v87 e97 v97

/-- Decode the `Le` octets of a parsed DO-97 (with DO-97 absent ↦ 0). -/
def rdfOfDo97 (e97 v97 : List Nat) : Except Err Nat :=
  match v97 with
  | [] => if e97 = [] then .ok 0 else .error .badSm
  | [y] => .ok (if y = 0 then 256 else y)
  | [y, z] => .ok (if y * 256 + z = 0 then 65536 else y * 256 + z)
  | _ :: _ :: _ :: _ => .error .badSm

/-- `btokSMCmdUnwrap`: with a null state, the strict canonical decode; with
a live state, decode, check the SM bit, parse the DOs in fixed order,
verify the MAC (before anything else is used), then decrypt. -/
def btokSMCmdUnwrap (p : SmPrims) (b : List Nat) (st : Option SmState) :
    Except Err apdu_cmd_t :=
  match st with
  | none => apduCmdDecode b
  | some s => do
    let c ← apduCmdDecode b
    if Nat.land c.cla 4 ≠ 4 then throw .badSm
    else do
    let (e87, v87, e97, v97, mac) ← parseBody c.cdf
    if mac ≠ p.macF s.key ([c.cla, c.ins, c.p1, c.p2] ++ s.ctr ++ e87 ++ e97) then
      throw .badMac
    else do
    let rdf0 ← rdfOfDo97 e97 v97
    match e87, v87 with
    | [], _ => .ok ⟨Nat.xor c.cla 4, c.ins, c.p1, c.p2, [], rdf0⟩
    | _, 2 :: ct => .ok ⟨Nat.xor c.cla 4, c.ins, c.p1, c.p2, p.decF s.key s.ctr ct, rdf0⟩
    | _, _ => throw .badSm

/-- MAC input for a protected response (DO-99 enters the MAC but is not
transmitted). -/
def smRespAuth (p : SmPrims) (s : SmState) (r : apdu_resp_t) : List Nat :=
  s.ctr ++ smDo87 p s r.rdf ++ [153, 2, r.sw1, r.sw2]

/-- `btokSMRespWrap`: with a null state, the plain encoding; with a live
state, DO-87 ‖ DO-8E ‖ SW1 SW2. -/
def btokSMRespWrap (p : SmPrims) (r : apdu_resp_t) (st : Option SmState) :
    Except Err (List Nat) :=
  if respValid r then
    match st with
    | none => .ok (apduRespEncode r)
    | some s =>
      if (smDo87 p s r.rdf).length ≤ 65535 then
        .ok (smDo87 p s r.rdf ++ 142 :: 8 :: p.macF s.key (smRespAuth p s r) ++
          [r.sw1, r.sw2])
      else .error .badInput
  else .error .badInput

/-- `btokSMRespUnwrap`: with a null state, the plain decode; with a live
state, parse DO-87 ‖ DO-8E ‖ SW, verify the MAC first, then decrypt. -/
def btokSMRespUnwrap (p : SmPrims) (b : List Nat) (st : Option SmState) :
    Except Err apdu_resp_t :=
  match st with
  | none => apduRespDecode b
  | some s => do
    let (e87, v87, r1) ← tryDO 135 b
    match r1 with
    | 142 :: 8 :: m1 :: m2 :: m3 :: m4 :: m5 :: m6 :: m7 :: m8 :: s1 :: s2 :: [] =>
      if [m1, m2, m3, m4, m5, m6, m7, m8] ≠
          p.macF s.key (s.ctr ++ e87 ++ [153, 2, s1, s2]) then
        throw .badMac
      else
        match e87, v87 with
        | [], _ => .ok ⟨s1, s2, []⟩
        | _, 2 :: ct => .ok ⟨s1, s2, p.decF s.key s.ctr ct⟩
        | _, _ => throw .badSm
    | _ => throw .badSm

/-- The select command of SM scenarios C and D: `cla ins p1 p2 = 00 A4 04 04`,
`cdf = "Test" = 54657374`, `rdf_len = 256`. -/
def cmdC4 : apdu_cmd_t := ⟨0, 164, 4, 4, [84, 101, 115, 116], 256⟩

/-- An injective coding of octet strings into a single `Nat`, used to build
an injective toy MAC for witnesses. -/
def listCode (l : List Nat) : Nat :=
  l.foldr (fun a acc => Nat.pair a acc + 1) 0

/-- Toy SM primitives for witnesses: identity cipher and an injective
8-octet MAC built from `listCode`. -/
def wSm : SmPrims :=
  ⟨fun _ _ x => x, fun _ _ x => x,
   fun _ a => [listCode a, 0, 0, 0, 0, 0, 0, 0]⟩

/-- Modelled from the spec: the first 32 octets of the `beltH()` test-data
string (STB 34.101.31 annex), used as the SM key of scenario D. -/
def beltH32 : List Nat :=
  [177, 148, 186, 200, 10, 8, 245, 59, 54, 109, 0, 142, 88, 74, 93, 228,
   133, 4, 250, 157, 27, 182, 199, 172, 37, 46, 114, 194, 2, 253, 206, 13]

/-- The big-endian SM counter after exactly one increment. -/
def smCtr1 : List Nat := List.replicate 15 0 ++ [1]

/-- The MAC input of the scenario-D protected command: masked header,
counter, DO-87 and DO-97. -/
def smAuthC2 : List Nat :=
  [4, 164, 4, 4] ++ smCtr1 ++ [135, 5, 2, 12, 76, 11, 251, 151, 1, 0]

/-- The exact 26-octet protected APDU
`04A4040414 8705020C4C0BFB 970100 8E08FBD50AD6814F90A9 00` of scenario D. -/
def wireC2 : List Nat :=
  [4, 164, 4, 4, 20, 135, 5, 2, 12, 76, 11, 251, 151, 1, 0,
   142, 8, 251, 213, 10, 214, 129, 79, 144, 169, 0]

/-- Concrete toy primitives matching the pinned scenario-D values. -/
def wSmC2 : SmPrims :=
  ⟨fun _ _ x => if x = [84, 101, 115, 116] then [12, 76, 11, 251] else x,
   fun _ _ x => if x = [12, 76, 11, 251] then [84, 101, 115, 116] else x,
   fun _ _ => [251, 213, 10, 214, 129, 79, 144, 169]⟩

/-! ## BAUTH (section 4.4)

Modelled from the spec: a 5-step authenticated key agreement between
Terminal (T) and Card-Terminal (CT).  The bign/belt primitives enter as an
abstract structure; the level-128 parameters fix a 64-octet ephemeral
public key and an 8-octet confirmation tag.  Each endpoint accumulates the
exchanged bytes in fixed order (M2, M3, then M4 when `kcb`); `StepG`
derives the 32-octet session key by a KDF over the Diffie-Hellman seed and
that transcript, which is the transcript-binding mechanism the spec
describes. -/

/-- Modelled from the spec: abstract asymmetric/symmetric primitives of the
BAUTH engine — ephemeral public-key generation, Diffie-Hellman, the
certificate public-key reader, the `K0` KDF, the confirmation MAC, the
certificate transport cipher and the final key KDF. -/
structure BauthPrims where
  pubOf : List Nat → List Nat
  dh : List Nat → List Nat → List Nat
  certPub : List Nat → List Nat
  kdf0 : List Nat → List Nat
  tag : List Nat → List Nat → List Nat
  encC : List Nat → List Nat → List Nat
  decC : List Nat → List Nat → List Nat
  kdf : List Nat → List Nat → List Nat

/-- Modelled from the spec: the matched inputs of one BAUTH session —
settings `kca`/`kcb`, long-term private keys, the ephemeral scalars drawn
from the two RNGs, and the two certificates. -/
structure BauthEnv where
  kca : Bool
  kcb : Bool
  da : List Nat
  db : List Nat
  ua : List Nat
  ub : List Nat
  certa : List Nat
  certb : List Nat

/-- M2 (CT → T): the CT ephemeral public followed by the `K0`-keyed MAC
over the identities and the nonce material. -/
def bauthM2 (p : BauthPrims) (e : BauthEnv) : List Nat :=
  p.pubOf e.ub ++ p.tag (p.kdf0 (p.certPub e.certa))
    (e.certb ++ e.certa ++ p.pubOf e.ub)

/-- M3 (T → CT): the T ephemeral public, T's confirmation tag over the
transcript so far, and (when `kca`) the encrypted T certificate. -/
def bauthM3 (p : BauthPrims) (e : BauthEnv) (m2 : List Nat) : List Nat :=
  p.pubOf e.ua ++ p.tag (p.dh e.ua (m2.take 64)) (m2 ++ p.pubOf e.ua) ++
    (if e.kca then p.encC (p.dh e.ua (m2.take 64)) e.certa else [])

/-- `btokBAuthTStep3`: T verifies M2 (length, then the `K0` MAC recomputed
over the received ephemeral) and emits M3. -/
def btokBAuthTStep3 (p : BauthPrims) (e : BauthEnv) (m2 : List Nat) :
    Except Err (List Nat) :=
  if m2.length ≠ 72 then throw .badInput
  else if m2.drop 64 ≠ p.tag (p.kdf0 (p.certPub e.certa))
      (e.certb ++ e.certa ++ m2.take 64) then throw .badMac
  else .ok (bauthM3 p e m2)

/-- M4 (CT → T): CT's confirmation tag over the full transcript, present
exactly when `kcb`. -/
def bauthM4 (p : BauthPrims) (e : BauthEnv) (m3 : List Nat) : List Nat :=
  if e.kcb then p.tag (p.dh e.ub (m3.take 64)) (bauthM2 p e ++ m3) else []

/-- `btokBAuthCTStep4`: CT verifies M3 (length, T's confirmation tag,
then — when `kca` — decrypts and validates the T certificate through the
caller-provided validator) and emits M4. -/
def btokBAuthCTStep4 (p : BauthPrims) (e : BauthEnv)
    (valF : List Nat → Bool) (m3 : List Nat) : Except Err (List Nat) :=
  if m3.length ≠ 72 + (if e.kca then e.certa.length else 0) then
    throw .badInput
  else if (m3.drop 64).take 8 ≠ p.tag (p.dh e.ub (m3.take 64))
      (bauthM2 p e ++ m3.take 64) then throw .badMac
  else if e.kca ∧ valF (p.decC (p.dh e.ub (m3.take 64)) (m3.drop 72)) =
      false then throw .badCert
  else .ok (bauthM4 p e m3)

/-- `btokBAuthTStep5`: T verifies CT's confirmation; required exactly when
`kcb`. -/
def btokBAuthTStep5 (p : BauthPrims) (e : BauthEnv) (m2 m4 : List Nat) :
    Except Err Unit :=
  if e.kcb then
    if m4 ≠ p.tag (p.dh e.ua (m2.take 64)) (m2 ++ bauthM3 p e m2) then
      throw .badMac
    else .ok ()
  else .ok ()

/-- `btokBAuthTStepG`: T's session key — KDF over the DH seed and the full
transcript as seen by T. -/
def btokBAuthTStepG (p : BauthPrims) (e : BauthEnv) (m2 m4 : List Nat) :
    List Nat :=
  p.kdf (p.dh e.ua (m2.take 64))
    (m2 ++ bauthM3 p e m2 ++ (if e.kcb then m4 else []))

/-- `btokBAuthCTStepG`: CT's session key — KDF over the DH seed and the
full transcript as seen by CT. -/
def btokBAuthCTStepG (p : BauthPrims) (e : BauthEnv) (m3 : List Nat) :
    List Nat :=
  p.kdf (p.dh e.ub (m3.take 64)) (bauthM2 p e ++ m3 ++ bauthM4 p e m3)

/-- T's end-to-end run: Step3 on the received M2, Step5 on the received
M4, then StepG. -/
def btokBAuthTRun (p : BauthPrims) (e : BauthEnv) (m2 m4 : List Nat) :
    Except Err (List Nat) := do
  let _ ← btokBAuthTStep3 p e m2
  let _ ← btokBAuthTStep5 p e m2 m4
  .ok (btokBAuthTStepG p e m2 m4)

/-- CT's end-to-end run: Step4 on the received M3, then StepG. -/
def btokBAuthCTRun (p : BauthPrims) (e : BauthEnv)
    (valF : List Nat → Bool) (m3 : List Nat) : Except Err (List Nat) := do
  let _ ← btokBAuthCTStep4 p e valF m3
  .ok (btokBAuthCTStepG p e m3)

/-- Toy BAUTH primitives for the witness: constant-length publics and
tags, symmetric constant DH, identity cipher, and an injective
32-octet KDF built from `listCode`. -/
def wBa : BauthPrims :=
  ⟨fun _ => List.replicate 64 0,
   fun _ _ => [],
   fun _ => [],
   fun _ => [],
   fun _ _ => List.replicate 8 0,
   fun _ x => x,
   fun _ x => x,
   fun _ t => listCode t :: List.replicate 31 0⟩

/-- Toy BAUTH environment with both authentication settings on. -/
def wEnv : BauthEnv := ⟨true, true, [1], [2], [3], [4], [5], [6]⟩

theorem berLen_length (n : Nat) :
    (berLen n).length = if n ≤ 127 then 1 else if n ≤ 255 then 2 else 3 := by
  unfold berLen; split_ifs <;> simp

theorem tlv_length (tag v : List Nat) :
    (tlv tag v).length = tag.length + (berLen v.length).length + v.length := by
  simp [tlv]; omega

theorem dropPre_append (p r : List Nat) : dropPre p (p ++ r) = some r := by
  induction p with
  | nil => rfl
  | cons x xs ih => simpa [dropPre] using ih

theorem dropPre_sound {p b r : List Nat} (h : dropPre p b = some r) : b = p ++ r := by
  induction p generalizing b with
  | nil => simpa [dropPre] using h
  | cons x xs ih =>
    cases b with
    | nil => simp [dropPre] at h
    | cons y ys =>
      by_cases hxy : y = x
      · subst hxy
        simp only [dropPre, if_pos rfl] at h
        simpa using ih h
      · simp [dropPre, hxy] at h

theorem parseBerLen_berLen {n : Nat} (h : n ≤ 65535) (r : List Nat) :
    parseBerLen (berLen n ++ r) = some (n, r) := by
  by_cases h1 : n ≤ 127
  · simp [berLen, parseBerLen, h1]
  · by_cases h2 : n ≤ 255
    · have h128 : 128 ≤ n := by omega
      simp [berLen, parseBerLen, parseBer81, h1, h2, h128]
    · have hd : n / 256 ≤ 255 := by omega
      have hm : n % 256 ≤ 255 := by omega
      have hge : 256 ≤ n / 256 * 256 + n % 256 := by omega
      simp [berLen, parseBerLen, parseBer82, h1, h2, hd, hm, hge]
      omega

theorem parseBerLen_sound {b : List Nat} {L : Nat} {r : List Nat}
    (h : parseBerLen b = some (L, r)) : b = berLen L ++ r ∧ L ≤ 65535 := by
  match b with
  | [] => simp [parseBerLen] at h
  | a :: as =>
    rw [parseBerLen] at h
    split_ifs at h with h1 h2 h3
    · obtain ⟨rfl, rfl⟩ : a = L ∧ as = r := by simpa using h
      exact ⟨by simp [berLen, h1], by omega⟩
    · subst h2
      match as with
      | [] => simp [parseBer81] at h
      | b2 :: r2 =>
        rw [parseBer81] at h
        split_ifs at h with h4
        obtain ⟨rfl, rfl⟩ : b2 = L ∧ r2 = r := by simpa using h
        refine ⟨?_, by omega⟩
        have hb : ¬ b2 ≤ 127 := by omega
        simp [berLen, hb, h4.2]
    · subst h3
      match as with
      | [] => simp [parseBer82] at h
      | [b2] => simp [parseBer82] at h
      | b2 :: c2 :: r2 =>
        rw [parseBer82] at h
        split_ifs at h with h4
        obtain ⟨rfl, rfl⟩ : b2 * 256 + c2 = L ∧ r2 = r := by simpa using h
        refine ⟨?_, by omega⟩
        have hno : ¬ b2 * 256 + c2 ≤ 127 := by omega
        have hno2 : ¬ b2 * 256 + c2 ≤ 255 := by omega
        rw [berLen, if_neg hno, if_neg hno2]
        have e1 : (b2 * 256 + c2) / 256 = b2 := by omega
        have e2 : (b2 * 256 + c2) % 256 = c2 := by omega
        rw [e1, e2]
        simp

theorem readTlv_print {v : List Nat} (hv : v.length ≤ 65535) (tag rest : List Nat) :
    readTlv tag (tlv tag v ++ rest) = some (v, rest) := by
  unfold readTlv tlv
  rw [List.append_assoc, List.append_assoc, dropPre_append]
  dsimp only
  rw [parseBerLen_berLen hv]
  dsimp only
  rw [if_pos (by simp), List.take_left, List.drop_left]

theorem readTlv_sound {tag b v r : List Nat} (h : readTlv tag b = some (v, r)) :
    b = tlv tag v ++ r ∧ v.length ≤ 65535 := by
  unfold readTlv at h
  cases hd : dropPre tag b with
  | none => rw [hd] at h; simp at h
  | some r1 =>
    rw [hd] at h
    dsimp only at h
    cases hp : parseBerLen r1 with
    | none => rw [hp] at h; simp at h
    | some Lr2 =>
      obtain ⟨L, r2⟩ := Lr2
      rw [hp] at h
      dsimp only at h
      split_ifs at h with hL
      obtain ⟨rfl, rfl⟩ : r2.take L = v ∧ r2.drop L = r := by simpa using h
      obtain ⟨hr1, hL65⟩ := parseBerLen_sound hp
      have hb := dropPre_sound hd
      have hlen : (r2.take L).length = L := by
        simp [List.length_take]; omega
      constructor
      · rw [hb, hr1, tlv, hlen]
        simp
      · omega

theorem btokCVCWrap_ok {sig : SigScheme} {cvc : btok_cvc_t} {privkey : List Nat}
    (hc : cvcCheckB cvc = true) :
    btokCVCWrap sig cvc privkey = .ok (cvcCert sig cvc privkey) := by
  simp [btokCVCWrap, cvcCert, cvcTbs, hc]

theorem exBindOk (a : α) (g : α → Except Err β) : (Except.ok a >>= g) = g a := rfl

theorem exBindErr (e : Err) (g : α → Except Err β) :
    ((Except.error e : Except Err α) >>= g) = Except.error e := rfl

theorem exPure (a : α) : (pure a : Except Err α) = Except.ok a := rfl

theorem exThrow (e : Err) : (throw e : Except Err α) = Except.error e := rfl

theorem liftO_some (e : Err) (a : α) : liftO e (some a) = .ok a := rfl

theorem liftO_none (e : Err) : liftO e (none : Option α) = .error e := rfl

theorem tlv_length_le (t v : List Nat) : (tlv t v).length ≤ t.length + 3 + v.length := by
  rw [tlv_length]
  have := berLen_length v.length
  split_ifs at this <;> omega

theorem oidOfPubkeyLen_length (n : Nat) : (oidOfPubkeyLen n).length = 10 := rfl

/-- Structural facts extracted from a successful field check. -/
theorem cvcCheckB_bounds {cvc : btok_cvc_t} (hc : cvcCheckB cvc = true) :
    8 ≤ cvc.authority.length ∧ cvc.authority.length ≤ 12 ∧
    8 ≤ cvc.holder.length ∧ cvc.holder.length ≤ 12 ∧
    cvc.from_.length = 6 ∧ cvc.until_.length = 6 ∧
    cvc.hat_eid.length = 5 ∧ cvc.hat_esign.length = 2 ∧
    (cvc.pubkey.length = 64 ∨ cvc.pubkey.length = 96 ∨ cvc.pubkey.length = 128) := by
  simp only [cvcCheckB, nameOk, dateOk, Bool.and_eq_true, Bool.or_eq_true,
    decide_eq_true_eq] at hc
  tauto

theorem cvcTbsContent_length_le {cvc : btok_cvc_t} (hc : cvcCheckB cvc = true) :
    (cvcTbsContent cvc).length ≤ 300 := by
  obtain ⟨_, ha2, _, hh2, hf, hu, he, hs, hp⟩ := cvcCheckB_bounds hc
  have hpk : cvc.pubkey.length ≤ 128 := by omega
  have t1 : (tlv [95, 41] [0]).length ≤ 6 := by
    have := tlv_length_le [95, 41] [0]; simp at this; omega
  have t2 : (tlv [66] cvc.authority).length ≤ 16 := by
    have := tlv_length_le [66] cvc.authority; simp at this; omega
  have t3 : (tlv [127, 73]
      (tlv [6] (oidOfPubkeyLen cvc.pubkey.length) ++ cvc.pubkey)).length ≤ 147 := by
    have h1 := tlv_length_le [127, 73]
      (tlv [6] (oidOfPubkeyLen cvc.pubkey.length) ++ cvc.pubkey)
    have h2 := tlv_length_le [6] (oidOfPubkeyLen cvc.pubkey.length)
    rw [oidOfPubkeyLen_length] at h2
    simp only [List.length_append, List.length_cons, List.length_nil] at h1 h2 ⊢
    omega
  have t4 : (tlv [95, 32] cvc.holder).length ≤ 17 := by
    have := tlv_length_le [95, 32] cvc.holder; simp at this; omega
  have t5 : (tlv [127, 76] (cvc.hat_eid ++ cvc.hat_esign)).length ≤ 12 := by
    have := tlv_length_le [127, 76] (cvc.hat_eid ++ cvc.hat_esign)
    simp only [List.length_append, List.length_cons, List.length_nil] at this ⊢
    omega
  have t6 : (tlv [95, 37] cvc.from_).length ≤ 11 := by
    have := tlv_length_le [95, 37] cvc.from_; simp at this; omega
  have t7 : (tlv [95, 36] cvc.until_).length ≤ 11 := by
    have := tlv_length_le [95, 36] cvc.until_; simp at this; omega
  simp only [cvcTbsContent, List.length_append]
  omega

theorem cvcTbs_length_le {cvc : btok_cvc_t} (hc : cvcCheckB cvc = true) :
    (cvcTbs cvc).length ≤ 305 := by
  have h1 := tlv_length_le [127, 78] (cvcTbsContent cvc)
  have h2 := cvcTbsContent_length_le hc
  simp only [cvcTbs, List.length_cons, List.length_nil] at h1 ⊢
  omega

/-- A wrapped certificate parses back to exactly the fields it was built
from; when a verifier key is supplied, it suffices that the scheme accepts
the signature made over the TBS portion. -/
theorem btokCVCUnwrap_cvcCert {sig : SigScheme} {cvc : btok_cvc_t} {privkey : List Nat}
    (hc : cvcCheckB cvc = true)
    (hs : (sig.sign privkey (cvcTbs cvc)).length ≤ 65000)
    (pub : Option (List Nat))
    (hv : ∀ vk, pub = some vk →
      sig.verify vk (cvcTbs cvc) (sig.sign privkey (cvcTbs cvc)) = true) :
    btokCVCUnwrap sig (cvcCert sig cvc privkey) pub = .ok cvc := by
  obtain ⟨ha1, ha2, hh1, hh2, hf, hu, he, hes, hp⟩ := cvcCheckB_bounds hc
  have hsig5 : (tlv [95, 55] (sig.sign privkey (cvcTbs cvc))).length ≤ 65005 := by
    have := tlv_length_le [95, 55] (sig.sign privkey (cvcTbs cvc))
    simp only [List.length_cons, List.length_nil] at this
    omega
  have e1 : readTlv [127, 33] (cvcCert sig cvc privkey) =
      some (cvcTbs cvc ++ tlv [95, 55] (sig.sign privkey (cvcTbs cvc)), []) := by
    have hb : (cvcTbs cvc ++ tlv [95, 55] (sig.sign privkey (cvcTbs cvc))).length
        ≤ 65535 := by
      have h1 := cvcTbs_length_le hc
      simp only [List.length_append]
      omega
    have := readTlv_print hb [127, 33] []
    rw [List.append_nil] at this
    exact this
  have e2 : readTlv [127, 78]
      (cvcTbs cvc ++ tlv [95, 55] (sig.sign privkey (cvcTbs cvc))) =
      some (cvcTbsContent cvc, tlv [95, 55] (sig.sign privkey (cvcTbs cvc))) := by
    conv in cvcTbs cvc ++ _ => rw [cvcTbs]
    exact readTlv_print (le_trans (cvcTbsContent_length_le hc) (by norm_num)) _ _
  have e3 : readTlv [95, 55] (tlv [95, 55] (sig.sign privkey (cvcTbs cvc))) =
      some (sig.sign privkey (cvcTbs cvc), []) := by
    have := readTlv_print (by omega : (sig.sign privkey (cvcTbs cvc)).length ≤ 65535)
      [95, 55] []
    rw [List.append_nil] at this
    exact this
  have ec : cvcTbsContent cvc =
      tlv [95, 41] [0] ++ (tlv [66] cvc.authority ++
        (tlv [127, 73] (tlv [6] (oidOfPubkeyLen cvc.pubkey.length) ++ cvc.pubkey) ++
          (tlv [95, 32] cvc.holder ++
            (tlv [127, 76] (cvc.hat_eid ++ cvc.hat_esign) ++
              (tlv [95, 37] cvc.from_ ++ tlv [95, 36] cvc.until_))))) := by
    simp [cvcTbsContent, List.append_assoc]
  have e4 : readTlv [95, 41] (cvcTbsContent cvc) =
      some ([0], tlv [66] cvc.authority ++
        (tlv [127, 73] (tlv [6] (oidOfPubkeyLen cvc.pubkey.length) ++ cvc.pubkey) ++
          (tlv [95, 32] cvc.holder ++
            (tlv [127, 76] (cvc.hat_eid ++ cvc.hat_esign) ++
              (tlv [95, 37] cvc.from_ ++ tlv [95, 36] cvc.until_))))) := by
    rw [ec]
    exact readTlv_print (by norm_num) _ _
  have e5 : readTlv [66] (tlv [66] cvc.authority ++
      (tlv [127, 73] (tlv [6] (oidOfPubkeyLen cvc.pubkey.length) ++ cvc.pubkey) ++
        (tlv [95, 32] cvc.holder ++
          (tlv [127, 76] (cvc.hat_eid ++ cvc.hat_esign) ++
            (tlv [95, 37] cvc.from_ ++ tlv [95, 36] cvc.until_))))) =
      some (cvc.authority,
        tlv [127, 73] (tlv [6] (oidOfPubkeyLen cvc.pubkey.length) ++ cvc.pubkey) ++
        (tlv [95, 32] cvc.holder ++
          (tlv [127, 76] (cvc.hat_eid ++ cvc.hat_esign) ++
            (tlv [95, 37] cvc.from_ ++ tlv [95, 36] cvc.until_)))) :=
    readTlv_print (by omega) _ _
  have e6 : readTlv [127, 73]
      (tlv [127, 73] (tlv [6] (oidOfPubkeyLen cvc.pubkey.length) ++ cvc.pubkey) ++
        (tlv [95, 32] cvc.holder ++
          (tlv [127, 76] (cvc.hat_eid ++ cvc.hat_esign) ++
            (tlv [95, 37] cvc.from_ ++ tlv [95, 36] cvc.until_)))) =
      some (tlv [6] (oidOfPubkeyLen cvc.pubkey.length) ++ cvc.pubkey,
        tlv [95, 32] cvc.holder ++
          (tlv [127, 76] (cvc.hat_eid ++ cvc.hat_esign) ++
            (tlv [95, 37] cvc.from_ ++ tlv [95, 36] cvc.until_))) := by
    refine readTlv_print ?_ _ _
    have := tlv_length_le [6] (oidOfPubkeyLen cvc.pubkey.length)
    rw [oidOfPubkeyLen_length] at this
    simp only [List.length_append, List.length_cons, List.length_nil] at this ⊢
    omega
  have e7 : readTlv [6] (tlv [6] (oidOfPubkeyLen cvc.pubkey.length) ++ cvc.pubkey) =
      some (oidOfPubkeyLen cvc.pubkey.length, cvc.pubkey) :=
    readTlv_print (by rw [oidOfPubkeyLen_length]; omega) _ _
  have e8 : readTlv [95, 32] (tlv [95, 32] cvc.holder ++
      (tlv [127, 76] (cvc.hat_eid ++ cvc.hat_esign) ++
        (tlv [95, 37] cvc.from_ ++ tlv [95, 36] cvc.until_))) =
      some (cvc.holder,
        tlv [127, 76] (cvc.hat_eid ++ cvc.hat_esign) ++
          (tlv [95, 37] cvc.from_ ++ tlv [95, 36] cvc.until_)) :=
    readTlv_print (by omega) _ _
  have e9 : readTlv [127, 76] (tlv [127, 76] (cvc.hat_eid ++ cvc.hat_esign) ++
      (tlv [95, 37] cvc.from_ ++ tlv [95, 36] cvc.until_)) =
      some (cvc.hat_eid ++ cvc.hat_esign,
        tlv [95, 37] cvc.from_ ++ tlv [95, 36] cvc.until_) := by
    refine readTlv_print ?_ _ _
    simp only [List.length_append]
    omega
  have e10 : readTlv [95, 37] (tlv [95, 37] cvc.from_ ++ tlv [95, 36] cvc.until_) =
      some (cvc.from_, tlv [95, 36] cvc.until_) :=
    readTlv_print (by omega) _ _
  have e11 : readTlv [95, 36] (tlv [95, 36] cvc.until_) = some (cvc.until_, []) := by
    have := readTlv_print (by omega : cvc.until_.length ≤ 65535) [95, 36] []
    rw [List.append_nil] at this
    exact this
  have etake : (cvc.hat_eid ++ cvc.hat_esign).take 5 = cvc.hat_eid := by
    rw [← he]; exact List.take_left _ _
  have edrop : (cvc.hat_eid ++ cvc.hat_esign).drop 5 = cvc.hat_esign := by
    rw [← he]; exact List.drop_left _ _
  have elen : (cvc.hat_eid ++ cvc.hat_esign).length = 7 := by
    simp [he, hes]
  have eeta : (⟨cvc.authority, cvc.holder, cvc.from_, cvc.until_, cvc.hat_eid,
      cvc.hat_esign, cvc.pubkey⟩ : btok_cvc_t) = cvc := rfl
  unfold btokCVCUnwrap
  rw [e1]
  simp only [liftO_some, exBindOk]
  rw [if_neg (by simp)]
  rw [e2]
  simp only [liftO_some, exBindOk]
  rw [e3]
  simp only [liftO_some, exBindOk]
  rw [if_neg (by simp)]
  rw [e4]
  simp only [liftO_some, exBindOk]
  rw [if_neg (by simp)]
  rw [e5]
  simp only [liftO_some, exBindOk]
  rw [e6]
  simp only [liftO_some, exBindOk]
  rw [e7]
  simp only [liftO_some, exBindOk]
  rw [e8]
  simp only [liftO_some, exBindOk]
  rw [e9]
  simp only [liftO_some, exBindOk]
  rw [e10]
  simp only [liftO_some, exBindOk]
  rw [e11]
  simp only [liftO_some, exBindOk]
  rw [if_neg (by simp)]
  rw [if_neg (by simp [elen])]
  rw [if_neg (by simp)]
  rw [etake, edrop, eeta]
  rw [if_neg (by simp [hc])]
  match pub with
  | none => rfl
  | some vk =>
    have hcond := hv vk rfl
    dsimp only
    rw [← cvcTbs, if_pos hcond]
    rfl

theorem parseBerLen_take_none {m j : Nat} (hj : j < (berLen m).length) :
    parseBerLen ((berLen m).take j) = none := by
  by_cases h1 : m ≤ 127
  · have hlen : (berLen m).length = 1 := by rw [berLen_length, if_pos h1]
    rw [hlen] at hj
    interval_cases j
    simp [parseBerLen]
  · by_cases h2 : m ≤ 255
    · have hlen : (berLen m).length = 2 := by rw [berLen_length, if_neg h1, if_pos h2]
      rw [hlen] at hj
      rw [berLen, if_neg h1, if_pos h2]
      interval_cases j
      · simp [parseBerLen]
      · simp [parseBerLen, parseBer81]
    · have hlen : (berLen m).length = 3 := by rw [berLen_length, if_neg h1, if_neg h2]
      rw [hlen] at hj
      rw [berLen, if_neg h1, if_neg h2]
      interval_cases j
      · simp [parseBerLen]
      · simp [parseBerLen, parseBer82]
      · simp [parseBerLen, parseBer82]

/-- On a well-formed outer certificate TLV, the length probe returns the
full encoded length exactly when the bound admits it, and the invalid
sentinel otherwise. -/
theorem btokCVCLen_tlv {body : List Nat} (hb : body.length ≤ 65535) (n : Nat) :
    btokCVCLen (tlv [127, 33] body) n =
      if (tlv [127, 33] body).length ≤ n then some (tlv [127, 33] body).length
      else none := by
  have hL : (tlv [127, 33] body).length =
      2 + (berLen body.length).length + body.length := by
    rw [tlv_length]; simp
  by_cases hn : (tlv [127, 33] body).length ≤ n
  · rw [if_pos hn]
    rw [btokCVCLen, List.take_of_length_le hn]
    have hform : tlv [127, 33] body = [127, 33] ++ (berLen body.length ++ body) := by
      simp [tlv]
    conv in dropPre _ _ => rw [hform, dropPre_append]
    dsimp only
    rw [parseBerLen_berLen hb]
    dsimp only
    rw [if_pos le_rfl, hL]
  · rw [if_neg hn]
    push_neg at hn
    have hn2 : n < 2 + (berLen body.length).length + body.length := hL ▸ hn
    rw [btokCVCLen]
    have hsplit : tlv [127, 33] body = 127 :: 33 :: (berLen body.length ++ body) := by
      simp [tlv]
    match n, hn2 with
    | 0, _ =>
      rw [List.take_zero]
      rfl
    | 1, _ =>
      rw [hsplit]
      rfl
    | (j + 2), hn2 =>
      rw [hsplit]
      simp only [List.take_succ_cons]
      have hdp : dropPre [127, 33]
          (127 :: 33 :: (berLen body.length ++ body).take j) =
          some ((berLen body.length ++ body).take j) := by
        simp [dropPre]
      rw [hdp]
      dsimp only
      rw [List.take_append_eq_append_take]
      by_cases hjk : j < (berLen body.length).length
      · have hz : j - (berLen body.length).length = 0 := by omega
        rw [hz, List.take_zero, List.append_nil]
        rw [parseBerLen_take_none hjk]
      · push_neg at hjk
        rw [List.take_of_length_le hjk]
        rw [parseBerLen_berLen hb]
        dsimp only
        rw [if_neg]
        simp only [List.length_take]
        omega

/-- C5: for every valid certificate field set `F` and a private key matching
`F.pubkey`, unwrapping the wrap of `F` under the public key derived from the
private key succeeds and returns exactly `F`, field for field. -/
theorem C5_cvc_wrap_unwrap_roundtrip (sig : SigScheme) (F : btok_cvc_t)
    (priv : List Nat)
    (hc : cvcCheckB F = true)
    (hmatch : sig.derivePub priv = F.pubkey)
    (hs : (sig.sign priv (cvcTbs F)).length ≤ 65000)
    (hver : sig.verify (sig.derivePub priv) (cvcTbs F)
      (sig.sign priv (cvcTbs F)) = true) :
    ∃ cert, btokCVCWrap sig F priv = .ok cert ∧
      btokCVCUnwrap sig cert (some (sig.derivePub priv)) = .ok F := by
  refine ⟨cvcCert sig F priv, btokCVCWrap_ok hc, ?_⟩
  refine btokCVCUnwrap_cvcCert hc hs (some (sig.derivePub priv)) (fun vk hvk => ?_)
  obtain rfl : vk = sig.derivePub priv := (Option.some.inj hvk).symm
  exact hver

theorem C5_witness :
    ∃ cert, btokCVCWrap wSig wCvc0 wPriv = .ok cert ∧
      btokCVCUnwrap wSig cert (some (wSig.derivePub wPriv)) = .ok wCvc0 :=
  C5_cvc_wrap_unwrap_roundtrip wSig wCvc0 wPriv (by decide) rfl (by decide) rfl

/-- C6: for a wrapped certificate of encoded length `L`, the length probe
returns `L` exactly when the bound is at least `L`, and the invalid sentinel
whenever the bound is short; in particular at bounds `L`, `L + 1` and
`L - 1`. -/
theorem C6_cvc_len_probe (sig : SigScheme) (F : btok_cvc_t) (priv : List Nat)
    (hc : cvcCheckB F = true)
    (hs : (sig.sign priv (cvcTbs F)).length ≤ 65000) :
    (∀ n, (btokCVCLen (cvcCert sig F priv) n = some (cvcCert sig F priv).length ↔
        (cvcCert sig F priv).length ≤ n) ∧
      (n < (cvcCert sig F priv).length → btokCVCLen (cvcCert sig F priv) n = none)) ∧
    btokCVCLen (cvcCert sig F priv) (cvcCert sig F priv).length =
      some (cvcCert sig F priv).length ∧
    btokCVCLen (cvcCert sig F priv) ((cvcCert sig F priv).length + 1) =
      some (cvcCert sig F priv).length ∧
    btokCVCLen (cvcCert sig F priv) ((cvcCert sig F priv).length - 1) = none := by
  have hb : (cvcTbs F ++ tlv [95, 55] (sig.sign priv (cvcTbs F))).length ≤ 65535 := by
    have h1 := cvcTbs_length_le hc
    have h2 := tlv_length_le [95, 55] (sig.sign priv (cvcTbs F))
    simp only [List.length_append, List.length_cons, List.length_nil] at h2 ⊢
    omega
  have hpos : 1 ≤ (cvcCert sig F priv).length := by
    rw [cvcCert, tlv_length]
    simp only [List.length_cons, List.length_nil]
    omega
  have key : ∀ n, btokCVCLen (cvcCert sig F priv) n =
      if (cvcCert sig F priv).length ≤ n then some (cvcCert sig F priv).length
      else none := by
    intro n
    rw [cvcCert]
    exact btokCVCLen_tlv hb n
  refine ⟨fun n => ⟨?_, fun hlt => ?_⟩, ?_, ?_, ?_⟩
  · rw [key n]
    split_ifs with h
    · simp [h]
    · simp [h]
  · rw [key n, if_neg (by omega)]
  · rw [key, if_pos le_rfl]
  · rw [key, if_pos (by omega)]
  · rw [key, if_neg (by omega)]

theorem C6_witness :
    ((btokCVCLen (cvcCert wSig wCvc0 wPriv) 5 =
        some (cvcCert wSig wCvc0 wPriv).length ↔
      (cvcCert wSig wCvc0 wPriv).length ≤ 5) ∧
     (5 < (cvcCert wSig wCvc0 wPriv).length →
      btokCVCLen (cvcCert wSig wCvc0 wPriv) 5 = none)) ∧
    btokCVCLen (cvcCert wSig wCvc0 wPriv) (cvcCert wSig wCvc0 wPriv).length =
      some (cvcCert wSig wCvc0 wPriv).length ∧
    btokCVCLen (cvcCert wSig wCvc0 wPriv) ((cvcCert wSig wCvc0 wPriv).length + 1) =
      some (cvcCert wSig wCvc0 wPriv).length ∧
    btokCVCLen (cvcCert wSig wCvc0 wPriv) ((cvcCert wSig wCvc0 wPriv).length - 1) =
      none := by
  have h := C6_cvc_len_probe wSig wCvc0 wPriv (by decide) (by decide)
  exact ⟨h.1 5, h.2.1, h.2.2.1, h.2.2.2⟩

/-- C7: on a chain that validates with a null date (the date check is
skipped), supplying a date before `child.from` or after `child.until` makes
`CvcVal` fail with `BadCert`. -/
theorem C7_cvc_val_dates (sig : SigScheme) (parentF childF : btok_cvc_t)
    (privp privc : List Nat)
    (hcp : cvcCheckB parentF = true) (hcc : cvcCheckB childF = true)
    (hsp : (sig.sign privp (cvcTbs parentF)).length ≤ 65000)
    (hsc : (sig.sign privc (cvcTbs childF)).length ≤ 65000)
    (hchain : childF.authority = parentF.holder)
    (hver : sig.verify parentF.pubkey (cvcTbs childF)
      (sig.sign privc (cvcTbs childF)) = true) :
    btokCVCVal sig (cvcCert sig childF privc) (cvcCert sig parentF privp) none =
      .ok childF ∧
    ∀ d, dateOk d = true →
      (dateNum d < dateNum childF.from_ ∨ dateNum childF.until_ < dateNum d) →
      btokCVCVal sig (cvcCert sig childF privc) (cvcCert sig parentF privp)
        (some d) = .error .badCert := by
  have hup : btokCVCUnwrap sig (cvcCert sig parentF privp) none = .ok parentF :=
    btokCVCUnwrap_cvcCert hcp hsp none (fun vk hvk => by simp at hvk)
  have huc : btokCVCUnwrap sig (cvcCert sig childF privc) (some parentF.pubkey) =
      .ok childF := by
    refine btokCVCUnwrap_cvcCert hcc hsc (some parentF.pubkey) (fun vk hvk => ?_)
    obtain rfl : vk = parentF.pubkey := (Option.some.inj hvk).symm
    exact hver
  constructor
  · rw [btokCVCVal, hup]
    simp only [exBindOk]
    rw [huc]
    simp only [exBindOk]
    rw [if_neg (by simp [hchain])]
    rfl
  · intro d hd hrange
    rw [btokCVCVal, hup]
    simp only [exBindOk]
    rw [huc]
    simp only [exBindOk]
    rw [if_neg (by simp [hchain])]
    rw [if_neg (by simp [hd]), if_pos hrange]
    rfl

theorem C7_witness :
    btokCVCVal wSig (cvcCert wSig wCvc1 wPriv) (cvcCert wSig wCvc0 wPriv) none =
      .ok wCvc1 ∧
    btokCVCVal wSig (cvcCert wSig wCvc1 wPriv) (cvcCert wSig wCvc0 wPriv)
      (some [0, 1, 0, 1, 0, 1]) = .error .badCert := by
  have h := C7_cvc_val_dates wSig wCvc0 wCvc1 wPriv wPriv (by decide) (by decide)
    (by decide) (by decide) (by decide) rfl
  exact ⟨h.1, h.2 [0, 1, 0, 1, 0, 1] (by decide) (by decide)⟩

/-- C8: a successful `CvcVal` implies the child authority equals the parent
holder, and a successful `CvcIss` implies the subject authority equals the
issuer holder. -/
theorem C8_name_chaining (sig : SigScheme) :
    (∀ c p now r, btokCVCVal sig c p now = .ok r →
      ∃ pf, btokCVCUnwrap sig p none = .ok pf ∧ r.authority = pf.holder) ∧
    (∀ subj ic il pr pl out, btokCVCIss sig subj ic il pr pl = .ok out →
      ∃ if0, btokCVCUnwrap sig (ic.take il) none = .ok if0 ∧
        subj.authority = if0.holder) := by
  constructor
  · intro c p now r h
    rw [btokCVCVal] at h
    cases h1 : btokCVCUnwrap sig p none with
    | error e =>
      rw [h1] at h
      simp only [exBindErr] at h
      exact Except.noConfusion h
    | ok cvca =>
      rw [h1] at h
      simp only [exBindOk] at h
      cases h2 : btokCVCUnwrap sig c (some cvca.pubkey) with
      | error e =>
        rw [h2] at h
        simp only [exBindErr] at h
        exact Except.noConfusion h
      | ok cvc =>
        rw [h2] at h
        simp only [exBindOk] at h
        by_cases h3 : cvc.authority ≠ cvca.holder
        · rw [if_pos h3, exThrow] at h
          exact Except.noConfusion h
        · push_neg at h3
          refine ⟨cvca, rfl, ?_⟩
          rw [if_neg (fun hne => hne h3)] at h
          have hr : r = cvc := by
            cases now with
            | none =>
              rw [exPure] at h
              exact (Except.ok.inj h).symm
            | some d =>
              dsimp only at h
              split_ifs at h
              all_goals
                first
                  | (rw [exThrow] at h; exact Except.noConfusion h)
                  | (rw [exPure] at h; exact (Except.ok.inj h).symm)
          rw [hr]
          exact h3
  · intro subj ic il pr pl out h
    rw [btokCVCIss] at h
    cases h1 : btokCVCUnwrap sig (ic.take il) none with
    | error e =>
      rw [h1] at h
      simp only [exBindErr] at h
      split_ifs at h
      all_goals
        first
          | (rw [exThrow] at h; exact Except.noConfusion h)
          | exact Except.noConfusion h
    | ok cvca =>
      rw [h1] at h
      simp only [exBindOk] at h
      split_ifs at h
      all_goals
        first
          | (rw [exThrow] at h; exact Except.noConfusion h)
          | (push_neg at *; exact ⟨cvca, rfl, by assumption⟩)

set_option maxRecDepth 10000 in
set_option maxHeartbeats 1000000 in
theorem C8_witness :
    ∃ pf, btokCVCUnwrap wSig (cvcCert wSig wCvc0 wPriv) none = .ok pf ∧
      wCvc1.authority = pf.holder :=
  (C8_name_chaining wSig).1 (cvcCert wSig wCvc1 wPriv) (cvcCert wSig wCvc0 wPriv)
    none wCvc1 rfl

/-- The field check, spelled out as a conjunction of propositions. -/
theorem cvcCheckB_true_iff (c : btok_cvc_t) : cvcCheckB c = true ↔
    (nameOk c.authority = true ∧ nameOk c.holder = true ∧
     dateOk c.from_ = true ∧ dateOk c.until_ = true ∧
     dateNum c.from_ ≤ dateNum c.until_ ∧
     c.hat_eid.length = 5 ∧ c.hat_eid.all (fun x => decide (x ≤ 255)) = true ∧
     c.hat_esign.length = 2 ∧ c.hat_esign.all (fun x => decide (x ≤ 255)) = true ∧
     (c.pubkey.length = 64 ∨ c.pubkey.length = 96 ∨ c.pubkey.length = 128) ∧
     c.pubkey.all (fun x => decide (x ≤ 255)) = true ∧
     c.pubkey.any (fun x => decide (x ≠ 0)) = true) := by
  simp only [cvcCheckB, Bool.and_eq_true, Bool.or_eq_true, decide_eq_true_eq]
  tauto

set_option maxRecDepth 10000 in
/-- C9: on the scenario-A root fields (12-octet names, validity
`020200070007..090900070007`, hats `EE`/`77`, 128-octet public key), the
field check fails while the public key is still all-zero and succeeds once
a key is present; after shortening both names to `BYCA0000`, wrapping
produces a certificate strictly shorter than 365 octets and unwrapping
recovers the exact fields. -/
theorem C9_scenario_a (sig : SigScheme) (pk priv : List Nat)
    (hpk : pk.length = 128)
    (hnz : pk.any (fun x => decide (x ≠ 0)) = true)
    (hrange : pk.all (fun x => decide (x ≤ 255)) = true)
    (hs : (sig.sign priv (cvcTbs (cvc9short pk))).length = 96) :
    btokCVCCheck (cvc9full (List.replicate 128 0)) = .error .badInput ∧
    btokCVCCheck (cvc9full pk) = .ok () ∧
    ∃ cert, btokCVCWrap sig (cvc9short pk) priv = .ok cert ∧
      cert.length < 365 ∧
      btokCVCUnwrap sig cert none = .ok (cvc9short pk) := by
  have hcf : cvcCheckB (cvc9full pk) = true := by
    rw [cvcCheckB_true_iff]
    dsimp only [cvc9full]
    exact ⟨by decide, by decide, by decide, by decide, by decide, by decide,
      by decide, by decide, by decide, Or.inr (Or.inr hpk), hrange, hnz⟩
  have hcs : cvcCheckB (cvc9short pk) = true := by
    rw [cvcCheckB_true_iff]
    dsimp only [cvc9short]
    exact ⟨by decide, by decide, by decide, by decide, by decide, by decide,
      by decide, by decide, by decide, Or.inr (Or.inr hpk), hrange, hnz⟩
  refine ⟨rfl, ?_, cvcCert sig (cvc9short pk) priv, btokCVCWrap_ok hcs, ?_, ?_⟩
  · rw [btokCVCCheck, if_pos hcf]
  · have hpk9 : (cvc9short pk).pubkey.length = 128 := by simpa [cvc9short] using hpk
    have hcontent : (cvcTbsContent (cvc9short pk)).length = 197 := by
      simp [cvcTbsContent, tlv_length, berLen_length, List.length_append,
        oidOfPubkeyLen_length, hpk, cvc9short, wFrom, wUntil]
    have htbs : (cvcTbs (cvc9short pk)).length = 201 := by
      simp [cvcTbs, tlv_length, berLen_length, hcontent]
    have hbody : (cvcTbs (cvc9short pk) ++
        tlv [95, 55] (sig.sign priv (cvcTbs (cvc9short pk)))).length = 300 := by
      simp [List.length_append, htbs, tlv_length, berLen_length, hs]
    have : (cvcCert sig (cvc9short pk) priv).length = 305 := by
      simp [cvcCert, tlv_length, berLen_length, hbody]
    omega
  · exact btokCVCUnwrap_cvcCert hcs (by omega) none (fun vk hvk => by simp at hvk)

set_option maxRecDepth 10000 in
theorem C9_witness :
    btokCVCCheck (cvc9full (List.replicate 128 0)) = .error .badInput ∧
    btokCVCCheck (cvc9full (List.replicate 128 2)) = .ok () ∧
    ∃ cert, btokCVCWrap wSig96 (cvc9short (List.replicate 128 2)) [5] = .ok cert ∧
      cert.length < 365 ∧
      btokCVCUnwrap wSig96 cert none = .ok (cvc9short (List.replicate 128 2)) :=
  C9_scenario_a wSig96 (List.replicate 128 2) [5] (by decide) (by decide)
    (by decide) (by decide)

/-- C10: issuance validates the issuer certificate length and the issuer
private-key length before producing output: a bound one octet short of the
true certificate length is rejected, a private-key length one octet longer
than the level dictates is rejected, and the exact lengths succeed. -/
theorem C10_iss_length_validation (sig : SigScheme) (issF subjF : btok_cvc_t)
    (privi priva : List Nat)
    (hci : cvcCheckB issF = true) (hcs : cvcCheckB subjF = true)
    (hsi : (sig.sign privi (cvcTbs issF)).length ≤ 65000)
    (hchain : subjF.authority = issF.holder)
    (hlev : subjF.pubkey.length ≤ issF.pubkey.length)
    (hplen : priva.length = issF.pubkey.length / 2) :
    btokCVCIss sig subjF (cvcCert sig issF privi)
      ((cvcCert sig issF privi).length - 1) priva (issF.pubkey.length / 2) =
      .error .badInput ∧
    btokCVCIss sig subjF (cvcCert sig issF privi)
      (cvcCert sig issF privi).length priva (issF.pubkey.length / 2 + 1) =
      .error .badInput ∧
    btokCVCIss sig subjF (cvcCert sig issF privi)
      (cvcCert sig issF privi).length priva (issF.pubkey.length / 2) =
      .ok (cvcCert sig subjF priva) := by
  have hbody : (cvcTbs issF ++ tlv [95, 55] (sig.sign privi (cvcTbs issF))).length
      ≤ 65535 := by
    have h1 := cvcTbs_length_le hci
    have h2 := tlv_length_le [95, 55] (sig.sign privi (cvcTbs issF))
    simp only [List.length_append, List.length_cons, List.length_nil] at h2 ⊢
    omega
  have hpos : 1 ≤ (cvcCert sig issF privi).length := by
    rw [cvcCert, tlv_length]
    simp only [List.length_cons, List.length_nil]
    omega
  have hprobe : ∀ n, btokCVCLen (cvcCert sig issF privi) n =
      if (cvcCert sig issF privi).length ≤ n
      then some (cvcCert sig issF privi).length else none := by
    intro n
    rw [cvcCert]
    exact btokCVCLen_tlv hbody n
  have hunw : btokCVCUnwrap sig (cvcCert sig issF privi) none = .ok issF :=
    btokCVCUnwrap_cvcCert hci hsi none (fun vk hvk => by simp at hvk)
  refine ⟨?_, ?_, ?_⟩
  · rw [btokCVCIss, if_pos]
    · rfl
    · rw [hprobe, if_neg (by omega)]
      simp
  · rw [btokCVCIss, if_neg]
    · rw [List.take_length, hunw]
      simp only [exBindOk]
      rw [if_pos (by omega)]
      rfl
    · rw [hprobe, if_pos le_rfl]
      simp
  · rw [btokCVCIss, if_neg]
    · rw [List.take_length, hunw]
      simp only [exBindOk]
      rw [if_neg (by omega), if_neg (by omega), if_neg (by simp [hchain]),
        if_neg (by omega)]
      exact btokCVCWrap_ok hcs
    · rw [hprobe, if_pos le_rfl]
      simp

set_option maxRecDepth 10000 in
theorem C10_witness :
    btokCVCIss wSig wCvc1 (cvcCert wSig wCvc0 wPriv)
      ((cvcCert wSig wCvc0 wPriv).length - 1) (List.replicate 32 9)
      (wCvc0.pubkey.length / 2) = .error .badInput ∧
    btokCVCIss wSig wCvc1 (cvcCert wSig wCvc0 wPriv)
      (cvcCert wSig wCvc0 wPriv).length (List.replicate 32 9)
      (wCvc0.pubkey.length / 2 + 1) = .error .badInput ∧
    btokCVCIss wSig wCvc1 (cvcCert wSig wCvc0 wPriv)
      (cvcCert wSig wCvc0 wPriv).length (List.replicate 32 9)
      (wCvc0.pubkey.length / 2) = .ok (cvcCert wSig wCvc1 (List.replicate 32 9)) :=
  C10_iss_length_validation wSig wCvc0 wCvc1 wPriv (List.replicate 32 9)
    (by decide) (by decide) (by decide) (by decide) (by decide) (by decide)

/-- C4: with a null SM state the wrap of the scenario-C command is exactly
the 10-octet plain canonical encoding `00A40404045465737400` (`cla`
untouched, `rdf_len = 256` encoded as the single short-form `Le` octet
`00`), and the null-state unwrap recovers the same command. -/
theorem C4_plain_sm_exact (p : SmPrims) :
    btokSMCmdWrap p cmdC4 none =
      .ok [0, 164, 4, 4, 4, 84, 101, 115, 116, 0] ∧
    btokSMCmdUnwrap p [0, 164, 4, 4, 4, 84, 101, 115, 116, 0] none = .ok cmdC4 :=
  ⟨rfl, rfl⟩

/-- The strict decoder inverts the canonical encoder on every valid
command. -/
theorem apduCmdDecode_encode {c : apdu_cmd_t}
    (hlen : c.cdf.length ≤ 65535) (hrdf : c.rdf_len ≤ 65536) :
    apduCmdDecode (apduCmdEncode c) = .ok c := by
  obtain ⟨cla, ins, p1, p2, cdf, rdf⟩ := c
  simp only at hlen hrdf
  by_cases hshort : cdf.length ≤ 255 ∧ rdf ≤ 256
  · rw [apduCmdEncode, if_pos hshort]
    match cdf, hlen, hshort with
    | [], _, _ =>
      by_cases hr : rdf = 0
      · subst hr; rfl
      · rw [if_pos rfl, if_neg hr]
        simp only [List.nil_append, List.cons_append]
        show apduCmdDecodeBody cla ins p1 p2 [rdf % 256] = _
        rw [apduCmdDecodeBody]
        have hm : rdf % 256 ≤ 255 := by omega
        rw [if_pos hm]
        by_cases h256 : rdf = 256
        · subst h256; rfl
        · have e1 : rdf % 256 = rdf := by omega
          rw [e1, if_neg hr]
    | d0 :: ds, hlen, hshort =>
      have hne : d0 :: ds ≠ [] := by simp
      have hL : (d0 :: ds).length = ds.length + 1 := by simp
      rw [if_neg hne]
      by_cases hr : rdf = 0
      · subst hr
        rw [if_pos rfl, List.append_nil]
        simp only [List.nil_append, List.cons_append]
        show apduCmdDecodeBody cla ins p1 p2 ((d0 :: ds).length :: d0 :: ds) = _
        rw [apduCmdDecodeBody, if_neg (by omega), apduCmdDecodeShort]
        rw [if_pos ⟨hshort.1, le_rfl⟩]
        rw [List.drop_length, List.take_length]
        rfl
      · rw [if_neg hr]
        simp only [List.nil_append, List.cons_append, List.append_assoc]
        show apduCmdDecodeBody cla ins p1 p2
          ((d0 :: ds).length :: d0 :: (ds ++ [rdf % 256])) = _
        rw [apduCmdDecodeBody, if_neg (by omega), apduCmdDecodeShort]
        have hjoin : d0 :: (ds ++ [rdf % 256]) = (d0 :: ds) ++ [rdf % 256] := by
          simp
        rw [if_pos ⟨hshort.1, by rw [hjoin, List.length_append, hL]; omega⟩]
        rw [hjoin, List.drop_left, List.take_left]
        rw [apduCmdDecodeLe]
        have hm : rdf % 256 ≤ 255 := by omega
        rw [if_pos hm]
        by_cases h256 : rdf = 256
        · subst h256; rfl
        · have e1 : rdf % 256 = rdf := by omega
          rw [e1, if_neg hr]
  · rw [apduCmdEncode, if_neg hshort]
    match cdf, hlen, hshort with
    | [], _, hshort =>
      have hrgt : 256 < rdf := by
        rcases Nat.lt_or_ge 256 rdf with h | h
        · exact h
        · exact absurd ⟨by simp, h⟩ hshort
      rw [if_pos rfl, if_neg (show ¬ rdf = 0 by omega), if_pos rfl]
      simp only [List.nil_append, List.cons_append]
      show apduCmdDecodeBody cla ins p1 p2 [0, (rdf / 256) % 256, rdf % 256] = _
      rw [apduCmdDecodeBody, if_pos rfl, apduCmdDecodeExt]
      by_cases h65536 : rdf = 65536
      · subst h65536
        norm_num
      · have e1 : (rdf / 256) % 256 = rdf / 256 := by omega
        have e2 : rdf / 256 * 256 + rdf % 256 = rdf := by omega
        have e3 : ¬ rdf / 256 * 256 + rdf % 256 = 0 := by omega
        rw [e1]
        rw [if_pos ⟨by omega, by omega, by rw [e2]; split_ifs <;> omega⟩]
        rw [if_neg e3, e2]
    | d0 :: ds, hlen, hshort =>
      have hne : d0 :: ds ≠ [] := by simp
      have hL : (d0 :: ds).length = ds.length + 1 := by simp
      rw [if_neg hne]
      by_cases hr : rdf = 0
      · subst hr
        have hlong : 255 < (d0 :: ds).length := by
          rcases Nat.lt_or_ge 255 (d0 :: ds).length with h | h
          · exact h
          · exact absurd ⟨h, by omega⟩ hshort
        rw [if_pos rfl, List.append_nil]
        simp only [List.nil_append, List.cons_append]
        show apduCmdDecodeBody cla ins p1 p2
          (0 :: (d0 :: ds).length / 256 :: (d0 :: ds).length % 256 :: d0 :: ds) = _
        rw [apduCmdDecodeBody, if_pos rfl, apduCmdDecodeExt]
        have e2 : (d0 :: ds).length / 256 * 256 + (d0 :: ds).length % 256
            = (d0 :: ds).length := by omega
        rw [if_pos ⟨by omega, by omega, by omega, by rw [e2]⟩]
        rw [e2, List.drop_length, apduCmdDecodeExtLe, if_pos (by omega),
          List.take_length]
      · rw [if_neg hr, if_neg hne]
        simp only [List.nil_append, List.cons_append, List.append_assoc]
        show apduCmdDecodeBody cla ins p1 p2
          (0 :: (d0 :: ds).length / 256 :: (d0 :: ds).length % 256 ::
            d0 :: (ds ++ [(rdf / 256) % 256, rdf % 256])) = _
        rw [apduCmdDecodeBody, if_pos rfl, apduCmdDecodeExt]
        have e2 : (d0 :: ds).length / 256 * 256 + (d0 :: ds).length % 256
            = (d0 :: ds).length := by omega
        have hjoin : d0 :: (ds ++ [(rdf / 256) % 256, rdf % 256])
            = (d0 :: ds) ++ [(rdf / 256) % 256, rdf % 256] := by simp
        rw [if_pos ⟨by omega, by omega, by omega,
          by rw [e2, hjoin, List.length_append, hL]; simp⟩]
        rw [e2, hjoin, List.drop_left, List.take_left, apduCmdDecodeExtLe]
        by_cases h65536 : rdf = 65536
        · subst h65536
          rw [if_pos ⟨by omega, by omega, Or.inr (by norm_num)⟩]
          rfl
        · have e3 : (rdf / 256) % 256 = rdf / 256 := by omega
          have e4 : rdf / 256 * 256 + rdf % 256 = rdf := by omega
          have e5 : ¬ rdf / 256 * 256 + rdf % 256 = 0 := by omega
          have hside : 255 < (d0 :: ds).length ∨
              256 < if rdf / 256 * 256 + rdf % 256 = 0 then 65536
                else rdf / 256 * 256 + rdf % 256 := by
            rw [e4]
            rcases Nat.lt_or_ge 255 (d0 :: ds).length with h | h
            · exact Or.inl h
            · refine Or.inr ?_
              rw [if_neg (by omega)]
              rcases Nat.lt_or_ge 256 rdf with h2 | h2
              · exact h2
              · exact absurd ⟨h, h2⟩ hshort
          rw [e3]
          rw [if_pos ⟨by omega, by omega, hside⟩]
          rw [if_neg e5, e4]

theorem landEq (a b : Nat) : Nat.land a b = a &&& b := rfl

theorem lorEq (a b : Nat) : Nat.lor a b = a ||| b := rfl

theorem xorEq (a b : Nat) : Nat.xor a b = a ^^^ b := rfl

theorem lor4_land (a : Nat) : Nat.land (Nat.lor a 4) 4 = 4 := by
  rw [landEq, lorEq]
  apply Nat.eq_of_testBit_eq
  intro i
  simp only [Nat.testBit_land, Nat.testBit_lor]
  cases h : Nat.testBit 4 i <;> simp [h]

theorem testBit4 (i : Nat) : Nat.testBit 4 i = decide (i = 2) := by
  match i with
  | 0 => rfl
  | 1 => rfl
  | 2 => rfl
  | (n + 3) =>
    have h8 : (8 : Nat) ≤ 2 ^ (n + 3) := by
      calc (8 : Nat) = 2 ^ 3 := by norm_num
      _ ≤ 2 ^ (n + 3) := Nat.pow_le_pow_right (by norm_num) (by omega)
    rw [Nat.testBit_lt_two_pow (by omega)]
    have : ¬ (n + 3 = 2) := by omega
    simp [this]

theorem lor4_xor {a : Nat} (h : Nat.land a 4 = 0) :
    Nat.xor (Nat.lor a 4) 4 = a := by
  have h2 : a.testBit 2 = false := by
    rw [landEq] at h
    have h3 := congrArg (fun n => Nat.testBit n 2) h
    simp only [Nat.testBit_land] at h3
    simp only [show Nat.testBit 4 2 = true from rfl, Bool.and_true] at h3
    simpa using h3
  rw [xorEq, lorEq]
  apply Nat.eq_of_testBit_eq
  intro i
  simp only [Nat.testBit_xor, Nat.testBit_lor, testBit4]
  by_cases hi : i = 2
  · subst hi
    simp [h2]
  · simp [hi]

theorem tryDO_hit {v : List Nat} (hv : v.length ≤ 65535) (t : Nat)
    (rest : List Nat) :
    tryDO t (t :: berLen v.length ++ v ++ rest) =
      .ok (t :: berLen v.length ++ v, v, rest) := by
  rw [tryDO.eq_def, List.append_assoc]
  simp [parseBerLen_berLen hv, List.take_left, List.drop_left]

theorem tryDO_miss {t h : Nat} (hne : h ≠ t) (r : List Nat) :
    tryDO t (h :: r) = .ok ([], [], h :: r) := by
  rw [tryDO.eq_def]
  simp [hne]

theorem berLen_length_le (n : Nat) : (berLen n).length ≤ 3 := by
  rw [berLen_length]; split_ifs <;> omega

theorem tryDO87_print {ct : List Nat} (h : ct.length + 1 ≤ 65535) (rest : List Nat) :
    tryDO 135 (135 :: (berLen (ct.length + 1) ++ (2 :: (ct ++ rest)))) =
      .ok (135 :: (berLen (ct.length + 1) ++ (2 :: ct)), 2 :: ct, rest) := by
  have h2 := tryDO_hit (v := 2 :: ct) (by simpa using h) 135 rest
  simp only [List.cons_append, List.append_assoc, List.length_cons] at h2 ⊢
  exact h2

theorem tryDO_hitR {v : List Nat} (hv : v.length ≤ 65535) (t : Nat)
    (rest : List Nat) :
    tryDO t (t :: (berLen v.length ++ (v ++ rest))) =
      .ok (t :: (berLen v.length ++ v), v, rest) := by
  have h2 := tryDO_hit hv t rest
  simp only [List.cons_append, List.append_assoc] at h2 ⊢
  exact h2

theorem tryDO_strict {t : Nat} {b e v r : List Nat}
    (h : tryDO t b = .ok (e, v, r)) : b = e ++ r := by
  cases b with
  | nil =>
    simp only [tryDO, Except.ok.injEq, Prod.mk.injEq] at h
    obtain ⟨rfl, -, rfl⟩ := h
    rfl
  | cons t0 r1 =>
    simp only [tryDO] at h
    split_ifs at h with ht
    · cases hp : parseBerLen r1 with
      | none => rw [hp] at h; dsimp only at h; exact absurd h (by simp)
      | some Lr2 =>
        obtain ⟨L, r2⟩ := Lr2
        rw [hp] at h
        dsimp only at h
        split_ifs at h with hL
        · simp only [Except.ok.injEq, Prod.mk.injEq] at h
          obtain ⟨he, -, hr⟩ := h
          obtain ⟨hb, -⟩ := parseBerLen_sound hp
          subst ht
          rw [hb, ← he, ← hr]
          simp [List.append_assoc, List.take_append_drop]
    · simp only [Except.ok.injEq, Prod.mk.injEq] at h
      obtain ⟨rfl, -, rfl⟩ := h
      rfl

theorem tryDO_error {t : Nat} {b : List Nat} {e : Err}
    (h : tryDO t b = .error e) : e = .badSm := by
  cases b with
  | nil => simp only [tryDO] at h; exact absurd h (by simp)
  | cons t0 r1 =>
    simp only [tryDO] at h
    split_ifs at h with ht
    cases hp : parseBerLen r1 with
    | none => rw [hp] at h; dsimp only at h; exact (Except.error.inj h).symm
    | some Lr2 =>
      obtain ⟨L, r2⟩ := Lr2
      rw [hp] at h
      dsimp only at h
      split_ifs at h with hL
      exact (Except.error.inj h).symm

theorem parse8E_strict {r2 e87 v87 e97 v97 : List Nat}
    {out : List Nat × List Nat × List Nat × List Nat × List Nat}
    (h : parse8E r2 e87 v87 e97 v97 = .ok out) :
    r2 = 142 :: 8 :: out.2.2.2.2 ∧
      out = (e87, v87, e97, v97, out.2.2.2.2) ∧ out.2.2.2.2.length = 8 := by
  match r2 with
  | [] => exact absurd h (by simp [parse8E])
  | [a] => exact absurd h (by simp [parse8E])
  | a :: b :: rest =>
    simp only [parse8E] at h
    split_ifs at h with hc
    obtain ⟨rfl, rfl, h8⟩ := hc
    rw [← Except.ok.inj h]
    exact ⟨rfl, rfl, h8⟩

theorem parse8E_error {r2 e87 v87 e97 v97 : List Nat} {e : Err}
    (h : parse8E r2 e87 v87 e97 v97 = .error e) : e = .badSm := by
  match r2 with
  | [] => exact (Except.error.inj h).symm
  | [a] => exact (Except.error.inj h).symm
  | a :: b :: rest =>
    simp only [parse8E] at h
    split_ifs at h with hc
    exact (Except.error.inj h).symm

theorem parseBody_strict {b e87 v87 e97 v97 mac : List Nat}
    (h : parseBody b = .ok (e87, v87, e97, v97, mac)) :
    b = e87 ++ e97 ++ 142 :: 8 :: mac ∧ mac.length = 8 := by
  rw [parseBody] at h
  cases h1 : tryDO 135 b with
  | error e => simp only [h1, exBindErr] at h; exact absurd h (by simp)
  | ok x1 =>
    obtain ⟨e87a, v87a, r1⟩ := x1
    simp only [h1, exBindOk] at h
    cases h2 : tryDO 151 r1 with
    | error e => simp only [h2, exBindErr] at h; exact absurd h (by simp)
    | ok x2 =>
      obtain ⟨e97a, v97a, r2⟩ := x2
      simp only [h2, exBindOk] at h
      obtain ⟨hr2, hout, h8⟩ := parse8E_strict h
      simp only [Prod.mk.injEq] at hout
      obtain ⟨rfl, -, rfl, -, -⟩ := hout
      have hb1 := tryDO_strict h1
      have hb2 := tryDO_strict h2
      refine ⟨?_, h8⟩
      rw [hb1, hb2, hr2, List.append_assoc]

theorem parseBody_error {b : List Nat} {e : Err}
    (h : parseBody b = .error e) : e = .badSm := by
  rw [parseBody] at h
  cases h1 : tryDO 135 b with
  | error e1 =>
    simp only [h1, exBindErr, Except.error.injEq] at h
    exact h ▸ tryDO_error h1
  | ok x1 =>
    obtain ⟨e87a, v87a, r1⟩ := x1
    simp only [h1, exBindOk] at h
    cases h2 : tryDO 151 r1 with
    | error e2 =>
      simp only [h2, exBindErr, Except.error.injEq] at h
      exact h ▸ tryDO_error h2
    | ok x2 =>
      obtain ⟨e97a, v97a, r2⟩ := x2
      simp only [h2, exBindOk] at h
      exact parse8E_error h

theorem leBytes_length_le (rdf : Nat) : (leBytes rdf).length ≤ 2 := by
  rw [leBytes]; split_ifs <;> simp

theorem rdfOfDo97_smDo97 (rdf : Nat) (h : rdf ≤ 65536) :
    rdfOfDo97 (smDo97 rdf) (if rdf = 0 then [] else leBytes rdf) = .ok rdf := by
  by_cases hr : rdf = 0
  · subst hr; rfl
  · rw [if_neg hr, leBytes]
    by_cases h256 : rdf ≤ 256
    · rw [if_pos h256]
      simp only [rdfOfDo97]
      by_cases h2 : rdf = 256
      · subst h2; simp
      · have hm : rdf % 256 = rdf := Nat.mod_eq_of_lt (by omega)
        rw [hm, if_neg hr]
    · rw [if_neg h256]
      simp only [rdfOfDo97]
      by_cases h65 : rdf = 65536
      · subst h65; simp
      · have hd : rdf / 256 < 256 := by omega
        have hm : rdf / 256 % 256 * 256 + rdf % 256 = rdf := by
          rw [Nat.mod_eq_of_lt hd]; omega
        rw [hm, if_neg (by omega)]

theorem parseBody_smCmdBody (p : SmPrims) (s : SmState) (c : apdu_cmd_t)
    (hlenF : (p.encF s.key s.ctr c.cdf).length = c.cdf.length)
    (hmac8 : (p.macF s.key (smCmdAuth p s c)).length = 8)
    (hcap : c.cdf.length ≤ 65000) :
    parseBody (smCmdBody p s c) =
      .ok (smDo87 p s c.cdf,
        if c.cdf = [] then [] else 2 :: p.encF s.key s.ctr c.cdf,
        smDo97 c.rdf_len,
        if c.rdf_len = 0 then [] else leBytes c.rdf_len,
        p.macF s.key (smCmdAuth p s c)) := by
  rw [parseBody, smCmdBody]
  by_cases h0 : c.cdf = [] <;> by_cases hr : c.rdf_len = 0
  · have d87 : smDo87 p s c.cdf = [] := by rw [smDo87, if_pos h0]
    have d97 : smDo97 c.rdf_len = [] := by rw [smDo97, if_pos hr]
    rw [d87, d97, if_pos h0, if_pos hr]
    simp only [List.nil_append]
    rw [tryDO_miss (show (142 : Nat) ≠ 135 by decide)]
    simp only [exBindOk]
    rw [tryDO_miss (show (142 : Nat) ≠ 151 by decide)]
    simp only [exBindOk]
    simp only [parse8E]
    rw [if_pos ⟨True.intro, True.intro, hmac8⟩]
  · have d87 : smDo87 p s c.cdf = [] := by rw [smDo87, if_pos h0]
    rw [d87, smDo97, if_neg hr, if_pos h0, if_neg hr]
    simp only [List.nil_append, List.cons_append, List.append_assoc]
    rw [tryDO_miss (show (151 : Nat) ≠ 135 by decide)]
    simp only [exBindOk]
    rw [tryDO_hitR ((leBytes_length_le c.rdf_len).trans (by omega)) 151]
    simp only [exBindOk]
    simp only [parse8E]
    rw [if_pos ⟨True.intro, True.intro, hmac8⟩]
  · have d97 : smDo97 c.rdf_len = [] := by rw [smDo97, if_pos hr]
    rw [smDo87, if_neg h0, d97, if_neg h0, if_pos hr]
    simp only [List.nil_append, List.cons_append, List.append_assoc]
    rw [tryDO87_print (by rw [hlenF]; omega)]
    simp only [exBindOk]
    rw [tryDO_miss (show (142 : Nat) ≠ 151 by decide)]
    simp only [exBindOk]
    simp only [parse8E]
    rw [if_pos ⟨True.intro, True.intro, hmac8⟩]
  · rw [smDo87, if_neg h0, smDo97, if_neg hr, if_neg h0, if_neg hr]
    simp only [List.cons_append, List.append_assoc]
    rw [tryDO87_print (by rw [hlenF]; omega)]
    simp only [exBindOk]
    rw [tryDO_hitR ((leBytes_length_le c.rdf_len).trans (by omega)) 151]
    simp only [exBindOk]
    simp only [parse8E]
    rw [if_pos ⟨True.intro, True.intro, hmac8⟩]

theorem smCmdBody_length_le (p : SmPrims) (s : SmState) (c : apdu_cmd_t)
    (hlenF : (p.encF s.key s.ctr c.cdf).length = c.cdf.length)
    (hmac8 : (p.macF s.key (smCmdAuth p s c)).length = 8)
    (hcap : c.cdf.length ≤ 65000) :
    (smCmdBody p s c).length ≤ 65535 := by
  have h87 : (smDo87 p s c.cdf).length ≤ c.cdf.length + 5 := by
    rw [smDo87]; split_ifs with h
    · simp
    · have hb := berLen_length_le ((p.encF s.key s.ctr c.cdf).length + 1)
      simp only [List.length_append, List.length_cons]
      omega
  have h97 : (smDo97 c.rdf_len).length ≤ 4 := by
    rw [smDo97]; split_ifs with h
    · simp
    · have hl := leBytes_length_le c.rdf_len
      have hb : berLen (leBytes c.rdf_len).length =
          [(leBytes c.rdf_len).length] := by
        rw [berLen, if_pos (by omega)]
      rw [hb]
      simp only [List.length_append, List.length_cons, List.length_nil]
      omega
  rw [smCmdBody]
  simp only [List.length_append, List.length_cons]
  omega

theorem btokSMCmdUnwrap_wrap (p : SmPrims) (s : SmState) (c : apdu_cmd_t)
    (hv : cmdValid c = true)
    (hcla : Nat.land c.cla 4 = 0)
    (hlenF : (p.encF s.key s.ctr c.cdf).length = c.cdf.length)
    (hinv : p.decF s.key s.ctr (p.encF s.key s.ctr c.cdf) = c.cdf)
    (hmac8 : (p.macF s.key (smCmdAuth p s c)).length = 8)
    (hcap : c.cdf.length ≤ 65000) :
    btokSMCmdWrap p c (some s) = .ok (apduCmdEncode (smWrappedCmd p s c)) ∧
    btokSMCmdUnwrap p (apduCmdEncode (smWrappedCmd p s c)) (some s) = .ok c := by
  have hbody := smCmdBody_length_le p s c hlenF hmac8 hcap
  refine ⟨?_, ?_⟩
  · rw [btokSMCmdWrap, if_pos hv]
    rw [if_pos hbody]
  · rw [btokSMCmdUnwrap]
    have hwc : (smWrappedCmd p s c).cdf.length ≤ 65535 := hbody
    have hwr : (smWrappedCmd p s c).rdf_len ≤ 65536 := by
      show (if (smCmdBody p s c).length ≤ 255 then 256 else 65536) ≤ 65536
      split_ifs <;> omega
    rw [apduCmdDecode_encode hwc hwr]
    simp only [exBindOk]
    have hcla4 : Nat.land (smWrappedCmd p s c).cla 4 = 4 := lor4_land c.cla
    rw [if_neg (by simp [hcla4])]
    have hcdf : (smWrappedCmd p s c).cdf = smCmdBody p s c := rfl
    rw [hcdf, parseBody_smCmdBody p s c hlenF hmac8 hcap]
    simp only [exBindOk]
    have hauth : ([(smWrappedCmd p s c).cla, (smWrappedCmd p s c).ins,
        (smWrappedCmd p s c).p1, (smWrappedCmd p s c).p2] ++ s.ctr ++
        smDo87 p s c.cdf ++ smDo97 c.rdf_len) = smCmdAuth p s c := rfl
    rw [hauth, if_neg (by simp)]
    have hrdfv : c.rdf_len ≤ 65536 := by
      simp only [cmdValid, Bool.and_eq_true, decide_eq_true_eq] at hv
      exact hv.2
    rw [rdfOfDo97_smDo97 c.rdf_len hrdfv]
    simp only [exBindOk]
    by_cases h0 : c.cdf = []
    · have d87 : smDo87 p s c.cdf = [] := by rw [smDo87, if_pos h0]
      rw [d87, if_pos h0]
      dsimp only
      have hx : Nat.xor (smWrappedCmd p s c).cla 4 = c.cla := lor4_xor hcla
      rw [hx, ← h0]
      rfl
    · have d87 : smDo87 p s c.cdf =
          135 :: berLen ((p.encF s.key s.ctr c.cdf).length + 1) ++
            2 :: p.encF s.key s.ctr c.cdf := by rw [smDo87, if_neg h0]
      rw [d87, if_neg h0]
      simp only [List.cons_append]
      have hx : Nat.xor (smWrappedCmd p s c).cla 4 = c.cla := lor4_xor hcla
      rw [hx, hinv]
      rfl

theorem smDo87_length_le (p : SmPrims) (s : SmState) (x : List Nat)
    (hlenF : (p.encF s.key s.ctr x).length = x.length) :
    (smDo87 p s x).length ≤ x.length + 5 := by
  rw [smDo87]; split_ifs with h
  · simp
  · have hb := berLen_length_le ((p.encF s.key s.ctr x).length + 1)
    simp only [List.length_append, List.length_cons]
    omega

theorem list8_eq {l : List Nat} (h : l.length = 8) :
    ∃ a b c d e f g i, l = [a, b, c, d, e, f, g, i] := by
  rcases l with _ | ⟨a, l⟩
  · simp only [List.length_nil] at h
    omega
  rcases l with _ | ⟨b, l⟩
  · simp only [List.length_cons, List.length_nil] at h
    omega
  rcases l with _ | ⟨c, l⟩
  · simp only [List.length_cons, List.length_nil] at h; omega
  rcases l with _ | ⟨d, l⟩
  · simp only [List.length_cons, List.length_nil] at h; omega
  rcases l with _ | ⟨e, l⟩
  · simp only [List.length_cons, List.length_nil] at h; omega
  rcases l with _ | ⟨f, l⟩
  · simp only [List.length_cons, List.length_nil] at h; omega
  rcases l with _ | ⟨g, l⟩
  · simp only [List.length_cons, List.length_nil] at h; omega
  rcases l with _ | ⟨i, l⟩
  · simp only [List.length_cons, List.length_nil] at h; omega
  rcases l with _ | ⟨j, l⟩
  · exact ⟨a, b, c, d, e, f, g, i, rfl⟩
  · simp only [List.length_cons, List.length_nil] at h; omega

theorem btokSMRespUnwrap_wrap (p : SmPrims) (s : SmState) (r : apdu_resp_t)
    (hv : respValid r = true)
    (hlenF : (p.encF s.key s.ctr r.rdf).length = r.rdf.length)
    (hinv : p.decF s.key s.ctr (p.encF s.key s.ctr r.rdf) = r.rdf)
    (hmac8 : (p.macF s.key (smRespAuth p s r)).length = 8)
    (hcap : r.rdf.length ≤ 65000) :
    btokSMRespWrap p r (some s) = .ok (smDo87 p s r.rdf ++
      142 :: 8 :: p.macF s.key (smRespAuth p s r) ++ [r.sw1, r.sw2]) ∧
    btokSMRespUnwrap p (smDo87 p s r.rdf ++
      142 :: 8 :: p.macF s.key (smRespAuth p s r) ++ [r.sw1, r.sw2])
      (some s) = .ok r := by
  have h87 := smDo87_length_le p s r.rdf hlenF
  obtain ⟨m1, m2, m3, m4, m5, m6, m7, m8, hm⟩ := list8_eq hmac8
  refine ⟨?_, ?_⟩
  · rw [btokSMRespWrap, if_pos hv]
    rw [if_pos (by omega)]
  · rw [btokSMRespUnwrap]
    by_cases h0 : r.rdf = []
    · have d87 : smDo87 p s r.rdf = [] := by rw [smDo87, if_pos h0]
      rw [d87, hm]
      simp only [List.nil_append, List.cons_append]
      rw [tryDO_miss (show (142 : Nat) ≠ 135 by decide)]
      simp only [exBindOk]
      have hau : s.ctr ++ [] ++ [153, 2, r.sw1, r.sw2] = smRespAuth p s r := by
        rw [smRespAuth, d87]
      rw [hau, hm, if_neg (by simp)]
      rw [← h0]
    · have d87 : smDo87 p s r.rdf =
          135 :: berLen ((p.encF s.key s.ctr r.rdf).length + 1) ++
            2 :: p.encF s.key s.ctr r.rdf := by rw [smDo87, if_neg h0]
      rw [d87, hm]
      simp only [List.cons_append, List.append_assoc, List.nil_append]
      rw [tryDO87_print (by rw [hlenF]; omega)]
      simp only [exBindOk]
      have hau : s.ctr ++ (135 :: (berLen ((p.encF s.key s.ctr r.rdf).length + 1) ++
          2 :: p.encF s.key s.ctr r.rdf) ++ [153, 2, r.sw1, r.sw2]) =
          smRespAuth p s r := by
        rw [smRespAuth, d87]
        simp only [List.cons_append, List.append_assoc]
      rw [hau, hm, if_neg (by simp)]
      rw [hinv]

theorem take_set_of_le : ∀ (l : List Nat) (j k v : Nat), k ≤ j →
    (l.set j v).take k = l.take k
  | [], _, _, _, _ => by simp
  | _ :: _, _, 0, _, _ => by simp
  | _ :: _, 0, _ + 1, _, h => by omega
  | a :: t, j + 1, k + 1, v, h => by
    simp only [List.set_cons_succ, List.take_succ_cons]
    rw [take_set_of_le t j k v (by omega)]

theorem drop_set_ge : ∀ (l : List Nat) (j k v : Nat), k ≤ j →
    (l.set j v).drop k = (l.drop k).set (j - k) v
  | [], _, _, _, _ => by simp
  | _ :: _, _, 0, _, _ => by simp
  | _ :: _, 0, _ + 1, _, h => by omega
  | a :: t, j + 1, k + 1, v, h => by
    simp only [List.set_cons_succ, List.drop_succ_cons]
    rw [drop_set_ge t j k v (by omega)]
    congr 1
    omega

theorem getD_set_self (l : List Nat) (j v : Nat) (h : j < l.length) :
    (l.set j v).getD j 0 = v := by
  rw [List.getD_eq_getElem?_getD, List.getElem?_set_self h]
  rfl

theorem getD_append_cons (l : List Nat) (x : Nat) (t : List Nat) :
    (l ++ x :: t).getD l.length 0 = x := by
  rw [List.getD_append_right l (x :: t) 0 l.length (Nat.le_refl _)]
  simp

theorem getD_append_cons2 (l : List Nat) (x y : Nat) (t : List Nat) :
    (l ++ x :: y :: t).getD (l.length + 1) 0 = y := by
  rw [List.getD_append_right l (x :: y :: t) 0 (l.length + 1) (by omega)]
  have h1 : l.length + 1 - l.length = 1 := by omega
  rw [h1]
  simp

theorem drop_append_cons2 (l : List Nat) (x y : Nat) (t : List Nat) :
    (l ++ x :: y :: t).drop (l.length + 2) = t := by
  rw [List.drop_append]
  rfl

theorem smUnwrap_gate (p : SmPrims) (s : SmState) (b : List Nat)
    (c2 : apdu_cmd_t) (hd : apduCmdDecode b = .ok c2)
    (hg : Nat.land c2.cla 4 ≠ 4) :
    btokSMCmdUnwrap p b (some s) = .error .badSm := by
  rw [btokSMCmdUnwrap, hd]
  simp only [exBindOk]
  rw [if_pos hg]
  rfl

theorem smUnwrap_parse_error (p : SmPrims) (s : SmState) (b : List Nat)
    (c2 : apdu_cmd_t) (e : Err) (hd : apduCmdDecode b = .ok c2)
    (hg : Nat.land c2.cla 4 = 4) (hp : parseBody c2.cdf = .error e) :
    btokSMCmdUnwrap p b (some s) = .error e := by
  rw [btokSMCmdUnwrap, hd]
  simp only [exBindOk]
  rw [if_neg (by simp [hg])]
  rw [hp, exBindErr]

theorem smUnwrap_mac_fail (p : SmPrims) (s : SmState) (b : List Nat)
    (c2 : apdu_cmd_t) (e87 v87 e97 v97 mac : List Nat)
    (hd : apduCmdDecode b = .ok c2) (hg : Nat.land c2.cla 4 = 4)
    (hp : parseBody c2.cdf = .ok (e87, v87, e97, v97, mac))
    (hm : mac ≠ p.macF s.key
      ([c2.cla, c2.ins, c2.p1, c2.p2] ++ s.ctr ++ e87 ++ e97)) :
    btokSMCmdUnwrap p b (some s) = .error .badMac := by
  rw [btokSMCmdUnwrap, hd]
  simp only [exBindOk]
  rw [if_neg (by simp [hg])]
  rw [hp]
  simp only [exBindOk]
  rw [if_pos hm]
  rfl

theorem apduCmdEncode_smShape (cla ins p1 p2 : Nat) (body : List Nat)
    (hne : body ≠ []) :
    apduCmdEncode ⟨cla, ins, p1, p2, body,
      if body.length ≤ 255 then 256 else 65536⟩ =
      if body.length ≤ 255 then
        [cla, ins, p1, p2, body.length] ++ body ++ [0]
      else
        [cla, ins, p1, p2, 0, body.length / 256, body.length % 256] ++
          body ++ [0, 0] := by
  rw [apduCmdEncode]
  dsimp only
  by_cases hb : body.length ≤ 255
  · rw [if_pos hb, if_pos hb, if_pos ⟨hb, by omega⟩, if_neg hne,
      if_neg (show ¬ (256 : Nat) = 0 by omega)]
    simp [List.cons_append, List.append_assoc]
  · rw [if_neg hb, if_neg hb, if_neg (fun hc => hb hc.1), if_neg hne,
      if_neg (show ¬ (65536 : Nat) = 0 by omega), if_neg hne]
    simp [List.cons_append, List.append_assoc]

theorem smUnwrap_hdr_flip (p : SmPrims) (s : SmState) (c : apdu_cmd_t)
    (hencLen : (p.encF s.key s.ctr c.cdf).length = c.cdf.length)
    (hmac8 : ∀ a, (p.macF s.key a).length = 8)
    (hmacInj : ∀ a b, p.macF s.key a = p.macF s.key b → a = b)
    (hcap : c.cdf.length ≤ 65000)
    (b : List Nat) (c2 : apdu_cmd_t)
    (hd : apduCmdDecode b = .ok c2)
    (hhdr : [c2.cla, c2.ins, c2.p1, c2.p2] ≠
      [Nat.lor c.cla 4, c.ins, c.p1, c.p2])
    (hcdf2 : c2.cdf = smCmdBody p s c) :
    btokSMCmdUnwrap p b (some s) = .error .badMac ∨
    btokSMCmdUnwrap p b (some s) = .error .badSm := by
  by_cases hg : Nat.land c2.cla 4 = 4
  · left
    have hpb : parseBody c2.cdf = .ok (smDo87 p s c.cdf,
        if c.cdf = [] then [] else 2 :: p.encF s.key s.ctr c.cdf,
        smDo97 c.rdf_len,
        if c.rdf_len = 0 then [] else leBytes c.rdf_len,
        p.macF s.key (smCmdAuth p s c)) := by
      rw [hcdf2]; exact parseBody_smCmdBody p s c hencLen (hmac8 _) hcap
    refine smUnwrap_mac_fail p s b c2 _ _ _ _ _ hd hg hpb ?_
    intro heq
    have h2 := hmacInj _ _ heq
    rw [smCmdAuth] at h2
    simp only [List.append_assoc] at h2
    have h3 := List.append_cancel_right h2
    exact hhdr h3.symm
  · exact Or.inr (smUnwrap_gate p s b c2 hd hg)

theorem smUnwrap_body_flip (p : SmPrims) (s : SmState) (c : apdu_cmd_t)
    (hmac8 : ∀ a, (p.macF s.key a).length = 8)
    (hmacInj : ∀ a b, p.macF s.key a = p.macF s.key b → a = b)
    (j v : Nat) (hj : j < (smCmdBody p s c).length)
    (hne : v ≠ (smCmdBody p s c).getD j 0)
    (b : List Nat) (c2 : apdu_cmd_t)
    (hd : apduCmdDecode b = .ok c2)
    (hcla2 : c2.cla = Nat.lor c.cla 4) (hins : c2.ins = c.ins)
    (hp1 : c2.p1 = c.p1) (hp2 : c2.p2 = c.p2)
    (hcdf2 : c2.cdf = (smCmdBody p s c).set j v) :
    btokSMCmdUnwrap p b (some s) = .error .badMac ∨
    btokSMCmdUnwrap p b (some s) = .error .badSm := by
  have hg : Nat.land c2.cla 4 = 4 := by rw [hcla2]; exact lor4_land c.cla
  have hM8 := hmac8 (smCmdAuth p s c)
  obtain ⟨D, hBD, hAuthD⟩ : ∃ D, smCmdBody p s c =
      D ++ 142 :: 8 :: p.macF s.key (smCmdAuth p s c) ∧
      smCmdAuth p s c =
        ([Nat.lor c.cla 4, c.ins, c.p1, c.p2] ++ s.ctr) ++ D :=
    ⟨smDo87 p s c.cdf ++ smDo97 c.rdf_len, by rw [smCmdBody],
     by rw [smCmdAuth]; simp [List.append_assoc]⟩
  have hDlen : D.length + 10 = (smCmdBody p s c).length := by
    rw [hBD]
    simp only [List.length_append, List.length_cons, hM8]
  cases hp : parseBody ((smCmdBody p s c).set j v) with
  | error e =>
    right
    have he : e = Err.badSm := parseBody_error hp
    have hu := smUnwrap_parse_error p s b c2 e hd hg (by rw [hcdf2]; exact hp)
    rw [hu, he]
  | ok out =>
    obtain ⟨e87x, v87x, e97x, v97x, macx⟩ := out
    obtain ⟨hstr, hx8⟩ := parseBody_strict hp
    have hsetlen : ((smCmdBody p s c).set j v).length =
        (smCmdBody p s c).length := List.length_set _ _ _
    have hlenx := congrArg List.length hstr
    rw [hsetlen] at hlenx
    simp only [List.length_append, List.length_cons, hx8] at hlenx
    have hxl : (e87x ++ e97x).length = D.length := by
      simp only [List.length_append]
      omega
    by_cases hj2 : j < D.length
    · left
      have hdropset : ((smCmdBody p s c).set j v).drop (D.length + 2) =
          (smCmdBody p s c).drop (D.length + 2) := by
        rw [List.drop_set_of_lt]
        omega
      have hdropB : (smCmdBody p s c).drop (D.length + 2) =
          p.macF s.key (smCmdAuth p s c) := by
        rw [hBD]; exact drop_append_cons2 _ _ _ _
      have hdropX : ((smCmdBody p s c).set j v).drop (D.length + 2) =
          macx := by
        rw [hstr, ← hxl]
        exact drop_append_cons2 _ _ _ _
      have hmacxM : macx = p.macF s.key (smCmdAuth p s c) := by
        rw [← hdropX, hdropset, hdropB]
      refine smUnwrap_mac_fail p s b c2 _ _ _ _ _ hd hg
        (by rw [hcdf2]; exact hp) ?_
      rw [hcla2, hins, hp1, hp2, hmacxM]
      intro heq
      have h2 := hmacInj _ _ heq
      rw [hAuthD] at h2
      simp only [List.append_assoc] at h2
      have h3 := List.append_cancel_left (List.append_cancel_left h2)
      have hcontr : (smCmdBody p s c).set j v = smCmdBody p s c := by
        rw [hstr, hBD, ← h3, hmacxM]
      have hv : ((smCmdBody p s c).set j v).getD j 0 = v :=
        getD_set_self _ _ _ hj
      rw [hcontr] at hv
      exact hne hv.symm
    · by_cases hj3 : j < D.length + 2
      · exfalso
        have hv : ((smCmdBody p s c).set j v).getD j 0 = v :=
          getD_set_self _ _ _ hj
        rcases Nat.eq_or_lt_of_le (show D.length ≤ j by omega) with hjD | hlt
        · have hBj : (smCmdBody p s c).getD j 0 = 142 := by
            rw [hBD, ← hjD]
            exact getD_append_cons _ _ _
          have hXj : ((smCmdBody p s c).set j v).getD j 0 = 142 := by
            rw [hstr, ← hjD, ← hxl]
            exact getD_append_cons _ _ _
          exact hne ((hv.symm.trans hXj).trans hBj.symm)
        · have hj1 : j = D.length + 1 := by omega
          have hBj : (smCmdBody p s c).getD j 0 = 8 := by
            rw [hBD, hj1]
            exact getD_append_cons2 _ _ _ _
          have hXj : ((smCmdBody p s c).set j v).getD j 0 = 8 := by
            rw [hstr, hj1, ← hxl]
            exact getD_append_cons2 _ _ _ _
          exact hne ((hv.symm.trans hXj).trans hBj.symm)
      · left
        have htakeset : ((smCmdBody p s c).set j v).take D.length =
            (smCmdBody p s c).take D.length :=
          take_set_of_le _ _ _ _ (by omega)
        have htakeB : (smCmdBody p s c).take D.length = D := by
          rw [hBD]; exact List.take_left _ _
        have htakeX : ((smCmdBody p s c).set j v).take D.length =
            e87x ++ e97x := by
          rw [hstr, ← hxl]
          exact List.take_left _ _
        have hDx : e87x ++ e97x = D := by
          rw [← htakeX, htakeset, htakeB]
        have hdropset : ((smCmdBody p s c).set j v).drop (D.length + 2) =
            ((smCmdBody p s c).drop (D.length + 2)).set
              (j - (D.length + 2)) v :=
          drop_set_ge _ _ _ _ (by omega)
        have hdropB : (smCmdBody p s c).drop (D.length + 2) =
            p.macF s.key (smCmdAuth p s c) := by
          rw [hBD]; exact drop_append_cons2 _ _ _ _
        have hdropX : ((smCmdBody p s c).set j v).drop (D.length + 2) =
            macx := by
          rw [hstr, ← hxl]
          exact drop_append_cons2 _ _ _ _
        have hmacx : macx =
            (p.macF s.key (smCmdAuth p s c)).set (j - (D.length + 2)) v := by
          rw [← hdropX, hdropset, hdropB]
        have hk : j - (D.length + 2) < 8 := by omega
        have hBj : (smCmdBody p s c).getD j 0 =
            (p.macF s.key (smCmdAuth p s c)).getD (j - (D.length + 2)) 0 := by
          rw [hBD, List.getD_append_right _ _ _ _ (by omega)]
          have h2 : j - D.length = j - (D.length + 2) + 2 := by omega
          rw [h2]
          rfl
        refine smUnwrap_mac_fail p s b c2 _ _ _ _ _ hd hg
          (by rw [hcdf2]; exact hp) ?_
        rw [hcla2, hins, hp1, hp2]
        intro heq
        have hA : ([Nat.lor c.cla 4, c.ins, c.p1, c.p2] ++ s.ctr ++
            e87x ++ e97x) = smCmdAuth p s c := by
          rw [hAuthD, List.append_assoc ([Nat.lor c.cla 4, c.ins, c.p1,
            c.p2] ++ s.ctr) e87x e97x, hDx]
        rw [hA] at heq
        rw [hmacx] at heq
        have hvk : ((p.macF s.key (smCmdAuth p s c)).set
            (j - (D.length + 2)) v).getD (j - (D.length + 2)) 0 = v :=
          getD_set_self _ _ _ (by rw [hM8]; exact hk)
        rw [heq] at hvk
        exact hne (hBj.trans hvk).symm

theorem btokSMCmd_flip (p : SmPrims) (s : SmState) (c : apdu_cmd_t)
    (hencLen : (p.encF s.key s.ctr c.cdf).length = c.cdf.length)
    (hmac8 : ∀ a, (p.macF s.key a).length = 8)
    (hmacInj : ∀ a b, p.macF s.key a = p.macF s.key b → a = b)
    (hcap : c.cdf.length ≤ 65000) :
    (∀ i, i < 4 → ∀ v,
      v ≠ [Nat.lor c.cla 4, c.ins, c.p1, c.p2].getD i 0 →
      btokSMCmdUnwrap p ((apduCmdEncode (smWrappedCmd p s c)).set i v)
        (some s) = .error .badMac ∨
      btokSMCmdUnwrap p ((apduCmdEncode (smWrappedCmd p s c)).set i v)
        (some s) = .error .badSm) ∧
    (∀ j, j < (smCmdBody p s c).length → ∀ v,
      v ≠ (smCmdBody p s c).getD j 0 →
      btokSMCmdUnwrap p ((apduCmdEncode (smWrappedCmd p s c)).set
        (j + (if (smCmdBody p s c).length ≤ 255 then 5 else 7)) v)
        (some s) = .error .badMac ∨
      btokSMCmdUnwrap p ((apduCmdEncode (smWrappedCmd p s c)).set
        (j + (if (smCmdBody p s c).length ≤ 255 then 5 else 7)) v)
        (some s) = .error .badSm) := by
  have hBle : (smCmdBody p s c).length ≤ 65535 :=
    smCmdBody_length_le p s c hencLen (hmac8 _) hcap
  have hBpos : 0 < (smCmdBody p s c).length := by
    rw [smCmdBody]
    simp only [List.length_append, List.length_cons]
    omega
  have hBne : smCmdBody p s c ≠ [] := by
    intro h
    rw [h] at hBpos
    exact absurd hBpos (by simp)
  have hw : apduCmdEncode (smWrappedCmd p s c) =
      if (smCmdBody p s c).length ≤ 255 then
        [Nat.lor c.cla 4, c.ins, c.p1, c.p2, (smCmdBody p s c).length] ++
          smCmdBody p s c ++ [0]
      else
        [Nat.lor c.cla 4, c.ins, c.p1, c.p2, 0,
          (smCmdBody p s c).length / 256, (smCmdBody p s c).length % 256] ++
          smCmdBody p s c ++ [0, 0] :=
    apduCmdEncode_smShape _ _ _ _ _ hBne
  constructor
  · intro i hi v hv
    interval_cases i
    · have hse : (apduCmdEncode (smWrappedCmd p s c)).set 0 v =
          apduCmdEncode ⟨v, c.ins, c.p1, c.p2, smCmdBody p s c,
            if (smCmdBody p s c).length ≤ 255 then 256 else 65536⟩ := by
        rw [hw, apduCmdEncode_smShape _ _ _ _ _ hBne]
        split_ifs <;> rfl
      rw [hse]
      exact smUnwrap_hdr_flip p s c hencLen hmac8 hmacInj hcap _ _
        (apduCmdDecode_encode (c := ⟨v, c.ins, c.p1, c.p2, smCmdBody p s c,
          if (smCmdBody p s c).length ≤ 255 then 256 else 65536⟩)
          hBle (by dsimp only; split_ifs <;> omega))
        (fun h => hv (List.cons.inj h).1) rfl
    · have hse : (apduCmdEncode (smWrappedCmd p s c)).set 1 v =
          apduCmdEncode ⟨Nat.lor c.cla 4, v, c.p1, c.p2, smCmdBody p s c,
            if (smCmdBody p s c).length ≤ 255 then 256 else 65536⟩ := by
        rw [hw, apduCmdEncode_smShape _ _ _ _ _ hBne]
        split_ifs <;> rfl
      rw [hse]
      exact smUnwrap_hdr_flip p s c hencLen hmac8 hmacInj hcap _ _
        (apduCmdDecode_encode (c := ⟨Nat.lor c.cla 4, v, c.p1, c.p2,
          smCmdBody p s c,
          if (smCmdBody p s c).length ≤ 255 then 256 else 65536⟩)
          hBle (by dsimp only; split_ifs <;> omega))
        (fun h => hv (List.cons.inj (List.cons.inj h).2).1) rfl
    · have hse : (apduCmdEncode (smWrappedCmd p s c)).set 2 v =
          apduCmdEncode ⟨Nat.lor c.cla 4, c.ins, v, c.p2, smCmdBody p s c,
            if (smCmdBody p s c).length ≤ 255 then 256 else 65536⟩ := by
        rw [hw, apduCmdEncode_smShape _ _ _ _ _ hBne]
        split_ifs <;> rfl
      rw [hse]
      exact smUnwrap_hdr_flip p s c hencLen hmac8 hmacInj hcap _ _
        (apduCmdDecode_encode (c := ⟨Nat.lor c.cla 4, c.ins, v, c.p2,
          smCmdBody p s c,
          if (smCmdBody p s c).length ≤ 255 then 256 else 65536⟩)
          hBle (by dsimp only; split_ifs <;> omega))
        (fun h => hv
          (List.cons.inj (List.cons.inj (List.cons.inj h).2).2).1) rfl
    · have hse : (apduCmdEncode (smWrappedCmd p s c)).set 3 v =
          apduCmdEncode ⟨Nat.lor c.cla 4, c.ins, c.p1, v, smCmdBody p s c,
            if (smCmdBody p s c).length ≤ 255 then 256 else 65536⟩ := by
        rw [hw, apduCmdEncode_smShape _ _ _ _ _ hBne]
        split_ifs <;> rfl
      rw [hse]
      exact smUnwrap_hdr_flip p s c hencLen hmac8 hmacInj hcap _ _
        (apduCmdDecode_encode (c := ⟨Nat.lor c.cla 4, c.ins, c.p1, v,
          smCmdBody p s c,
          if (smCmdBody p s c).length ≤ 255 then 256 else 65536⟩)
          hBle (by dsimp only; split_ifs <;> omega))
        (fun h => hv (List.cons.inj
          (List.cons.inj (List.cons.inj (List.cons.inj h).2).2).2).1) rfl
  · intro j hj v hv
    have hLs : ((smCmdBody p s c).set j v).length =
        (smCmdBody p s c).length := List.length_set _ _ _
    have hBsne : (smCmdBody p s c).set j v ≠ [] := by
      intro h
      have h2 := congrArg List.length h
      rw [hLs] at h2
      simp only [List.length_nil] at h2
      omega
    by_cases hb : (smCmdBody p s c).length ≤ 255
    · rw [if_pos hb, hw, if_pos hb]
      have h1 : (smCmdBody p s c ++ [0]).set j v =
          (smCmdBody p s c).set j v ++ [0] := by
        rw [List.set_append_left]
        exact hj
      have h2 : (([Nat.lor c.cla 4, c.ins, c.p1, c.p2,
          (smCmdBody p s c).length] ++ (smCmdBody p s c ++ [0])).set
            (j + 5) v) =
          [Nat.lor c.cla 4, c.ins, c.p1, c.p2, (smCmdBody p s c).length] ++
            (smCmdBody p s c ++ [0]).set j v := rfl
      have henc : apduCmdEncode ⟨Nat.lor c.cla 4, c.ins, c.p1, c.p2,
          (smCmdBody p s c).set j v,
          if ((smCmdBody p s c).set j v).length ≤ 255 then 256 else 65536⟩ =
          [Nat.lor c.cla 4, c.ins, c.p1, c.p2, (smCmdBody p s c).length] ++
            (smCmdBody p s c).set j v ++ [0] := by
        rw [apduCmdEncode_smShape _ _ _ _ _ hBsne, hLs, if_pos hb]
      have hse : ([Nat.lor c.cla 4, c.ins, c.p1, c.p2,
          (smCmdBody p s c).length] ++ smCmdBody p s c ++ [0]).set
            (j + 5) v =
          apduCmdEncode ⟨Nat.lor c.cla 4, c.ins, c.p1, c.p2,
            (smCmdBody p s c).set j v,
            if ((smCmdBody p s c).set j v).length ≤ 255
            then 256 else 65536⟩ := by
        rw [List.append_assoc, h2, h1, henc, List.append_assoc]
      rw [hse]
      exact smUnwrap_body_flip p s c hmac8 hmacInj j v hj hv _ _
        (apduCmdDecode_encode (c := ⟨Nat.lor c.cla 4, c.ins, c.p1, c.p2,
          (smCmdBody p s c).set j v,
          if ((smCmdBody p s c).set j v).length ≤ 255 then 256 else 65536⟩)
          (by rw [hLs]; exact hBle) (by dsimp only; split_ifs <;> omega))
        rfl rfl rfl rfl rfl
    · rw [if_neg hb, hw, if_neg hb]
      have h1 : (smCmdBody p s c ++ [0, 0]).set j v =
          (smCmdBody p s c).set j v ++ [0, 0] := by
        rw [List.set_append_left]
        exact hj
      have h2 : (([Nat.lor c.cla 4, c.ins, c.p1, c.p2, 0,
          (smCmdBody p s c).length / 256, (smCmdBody p s c).length % 256] ++
          (smCmdBody p s c ++ [0, 0])).set (j + 7) v) =
          [Nat.lor c.cla 4, c.ins, c.p1, c.p2, 0,
            (smCmdBody p s c).length / 256,
            (smCmdBody p s c).length % 256] ++
            (smCmdBody p s c ++ [0, 0]).set j v := rfl
      have henc : apduCmdEncode ⟨Nat.lor c.cla 4, c.ins, c.p1, c.p2,
          (smCmdBody p s c).set j v,
          if ((smCmdBody p s c).set j v).length ≤ 255 then 256 else 65536⟩ =
          [Nat.lor c.cla 4, c.ins, c.p1, c.p2, 0,
            (smCmdBody p s c).length / 256,
            (smCmdBody p s c).length % 256] ++
            (smCmdBody p s c).set j v ++ [0, 0] := by
        rw [apduCmdEncode_smShape _ _ _ _ _ hBsne, hLs, if_neg hb]
      have hse : ([Nat.lor c.cla 4, c.ins, c.p1, c.p2, 0,
          (smCmdBody p s c).length / 256, (smCmdBody p s c).length % 256] ++
          smCmdBody p s c ++ [0, 0]).set (j + 7) v =
          apduCmdEncode ⟨Nat.lor c.cla 4, c.ins, c.p1, c.p2,
            (smCmdBody p s c).set j v,
            if ((smCmdBody p s c).set j v).length ≤ 255
            then 256 else 65536⟩ := by
        rw [List.append_assoc, h2, h1, henc, List.append_assoc]
      rw [hse]
      exact smUnwrap_body_flip p s c hmac8 hmacInj j v hj hv _ _
        (apduCmdDecode_encode (c := ⟨Nat.lor c.cla 4, c.ins, c.p1, c.p2,
          (smCmdBody p s c).set j v,
          if ((smCmdBody p s c).set j v).length ≤ 255 then 256 else 65536⟩)
          (by rw [hLs]; exact hBle) (by dsimp only; split_ifs <;> omega))
        rfl rfl rfl rfl rfl

theorem listCode_inj : ∀ {a b : List Nat}, listCode a = listCode b → a = b
  | [], [], _ => rfl
  | [], x :: t, h => by
    simp only [listCode, List.foldr] at h
    omega
  | x :: t, [], h => by
    simp only [listCode, List.foldr] at h
    omega
  | x :: t, y :: u, h => by
    simp only [listCode, List.foldr] at h
    have h2 : Nat.pair x (listCode t) = Nat.pair y (listCode u) := by
      simp only [listCode]
      omega
    have h3 := Nat.pair_eq_pair.mp h2
    rw [h3.1, listCode_inj h3.2]

/-- C3: with live lockstep SM states on both sides and well-behaved
symmetric primitives (length-preserving CTR encryption inverted by
decryption, an 8-octet MAC that is injective on authenticated inputs), (i)
unwrapping the wrap of any valid command APDU returns exactly that command,
(ii) the same round trip holds for response APDUs, and (iii) flipping any
octet of the wrapped command APDU in the MAC-covered regions (the four
header octets, or any octet of the DO-87/97/8E body) makes the unwrap fail
with `BadMac` or `BadSm`. -/
theorem C3_sm_roundtrip_flip (p : SmPrims) (s : SmState)
    (hencLen : ∀ x, (p.encF s.key s.ctr x).length = x.length)
    (hdecInv : ∀ x, p.decF s.key s.ctr (p.encF s.key s.ctr x) = x)
    (hmac8 : ∀ a, (p.macF s.key a).length = 8)
    (hmacInj : ∀ a b, p.macF s.key a = p.macF s.key b → a = b) :
    (∀ c : apdu_cmd_t, cmdValid c = true → Nat.land c.cla 4 = 0 →
      c.cdf.length ≤ 65000 →
      btokSMCmdWrap p c (some s) =
        .ok (apduCmdEncode (smWrappedCmd p s c)) ∧
      btokSMCmdUnwrap p (apduCmdEncode (smWrappedCmd p s c)) (some s) =
        .ok c) ∧
    (∀ r : apdu_resp_t, respValid r = true → r.rdf.length ≤ 65000 →
      btokSMRespWrap p r (some s) = .ok (smDo87 p s r.rdf ++
        142 :: 8 :: p.macF s.key (smRespAuth p s r) ++ [r.sw1, r.sw2]) ∧
      btokSMRespUnwrap p (smDo87 p s r.rdf ++
        142 :: 8 :: p.macF s.key (smRespAuth p s r) ++ [r.sw1, r.sw2])
        (some s) = .ok r) ∧
    (∀ c : apdu_cmd_t, c.cdf.length ≤ 65000 →
      (∀ i, i < 4 → ∀ v,
        v ≠ [Nat.lor c.cla 4, c.ins, c.p1, c.p2].getD i 0 →
        btokSMCmdUnwrap p ((apduCmdEncode (smWrappedCmd p s c)).set i v)
          (some s) = .error .badMac ∨
        btokSMCmdUnwrap p ((apduCmdEncode (smWrappedCmd p s c)).set i v)
          (some s) = .error .badSm) ∧
      (∀ j, j < (smCmdBody p s c).length → ∀ v,
        v ≠ (smCmdBody p s c).getD j 0 →
        btokSMCmdUnwrap p ((apduCmdEncode (smWrappedCmd p s c)).set
          (j + (if (smCmdBody p s c).length ≤ 255 then 5 else 7)) v)
          (some s) = .error .badMac ∨
        btokSMCmdUnwrap p ((apduCmdEncode (smWrappedCmd p s c)).set
          (j + (if (smCmdBody p s c).length ≤ 255 then 5 else 7)) v)
          (some s) = .error .badSm)) :=
  ⟨fun c hv hcla hcap =>
    btokSMCmdUnwrap_wrap p s c hv hcla (hencLen c.cdf) (hdecInv c.cdf)
      (hmac8 _) hcap,
   fun r hrv hrcap =>
    btokSMRespUnwrap_wrap p s r hrv (hencLen r.rdf) (hdecInv r.rdf)
      (hmac8 _) hrcap,
   fun c hcap =>
    btokSMCmd_flip p s c (hencLen c.cdf) hmac8 hmacInj hcap⟩

/-- C3 witness: the abstract round-trip/flip theorem applied to the toy
primitives, a concrete state and the scenario-C command. -/
theorem C3_witness :
    btokSMCmdUnwrap wSm (apduCmdEncode (smWrappedCmd wSm
      (btokSMStart [7]) cmdC4)) (some (btokSMStart [7])) = .ok cmdC4 :=
  ((C3_sm_roundtrip_flip wSm (btokSMStart [7])
    (fun _ => rfl) (fun _ => rfl) (fun _ => rfl)
    (fun _ _ h => listCode_inj (List.cons.inj h).1)).1
    cmdC4 (by decide) (by decide) (by decide)).2

/-- C2: with the SM state started on `beltH()[0..32]` and the counter
incremented once, and with the cipher/MAC pinned at the scenario-D values
(`encF("Test") = 0C4C0BFB`, MAC of the masked header, counter and DOs =
`FBD50AD6814F90A9`), wrapping the command `00 A4 04 04 | "Test" | 256`
produces exactly the 26-octet APDU
`04A4040414 8705020C4C0BFB 970100 8E08FBD50AD6814F90A9 00`, and the peer
with the lockstep counter unwraps it back to the same command. -/
theorem C2_protected_sm_exact (p : SmPrims)
    (henc : p.encF beltH32 smCtr1 [84, 101, 115, 116] = [12, 76, 11, 251])
    (hmac : p.macF beltH32 smAuthC2 = [251, 213, 10, 214, 129, 79, 144, 169])
    (hdec : p.decF beltH32 smCtr1 [12, 76, 11, 251] = [84, 101, 115, 116]) :
    btokSMCmdWrap p cmdC4 (some (btokSMCtrInc (btokSMStart beltH32))) =
      .ok wireC2 ∧
    btokSMCmdUnwrap p wireC2 (some (btokSMCtrInc (btokSMStart beltH32))) =
      .ok cmdC4 := by
  have hs : btokSMCtrInc (btokSMStart beltH32) =
      (⟨beltH32, smCtr1⟩ : SmState) := by decide
  rw [hs]
  have h87 : smDo87 p ⟨beltH32, smCtr1⟩ [84, 101, 115, 116] =
      [135, 5, 2, 12, 76, 11, 251] := by
    rw [smDo87, if_neg (by decide)]
    dsimp only
    rw [henc]
    decide
  have hauth : smCmdAuth p ⟨beltH32, smCtr1⟩ cmdC4 = smAuthC2 := by
    rw [smCmdAuth]
    dsimp only
    rw [show cmdC4.cdf = [84, 101, 115, 116] from rfl, h87]
    decide
  have hbody : smCmdBody p ⟨beltH32, smCtr1⟩ cmdC4 =
      [135, 5, 2, 12, 76, 11, 251, 151, 1, 0, 142, 8,
       251, 213, 10, 214, 129, 79, 144, 169] := by
    rw [smCmdBody, hauth, hmac]
    rw [show cmdC4.cdf = [84, 101, 115, 116] from rfl, h87]
    decide
  constructor
  · rw [btokSMCmdWrap, if_pos (by decide)]
    rw [if_pos (by rw [hbody]; decide)]
    rw [smWrappedCmd, hbody]
    exact congrArg Except.ok (by decide)
  · rw [btokSMCmdUnwrap]
    have hdecw : apduCmdDecode wireC2 = .ok ⟨4, 164, 4, 4,
        [135, 5, 2, 12, 76, 11, 251, 151, 1, 0, 142, 8,
         251, 213, 10, 214, 129, 79, 144, 169], 256⟩ := rfl
    rw [hdecw]
    simp only [exBindOk]
    rw [if_neg (by decide)]
    have hpb : parseBody [135, 5, 2, 12, 76, 11, 251, 151, 1, 0, 142, 8,
        251, 213, 10, 214, 129, 79, 144, 169] =
        .ok ([135, 5, 2, 12, 76, 11, 251], [2, 12, 76, 11, 251],
          [151, 1, 0], [0], [251, 213, 10, 214, 129, 79, 144, 169]) := rfl
    rw [hpb]
    simp only [exBindOk]
    rw [show ([4, 164, 4, 4] : List Nat) ++ smCtr1 ++
      [135, 5, 2, 12, 76, 11, 251] ++ [151, 1, 0] = smAuthC2 from by decide]
    rw [hmac]
    rw [if_neg (by decide)]
    rw [show rdfOfDo97 [151, 1, 0] [0] = .ok 256 from rfl]
    simp only [exBindOk]
    rw [hdec]
    exact congrArg Except.ok (by decide)

/-- C2 witness: the exact-octet theorem applied to the concrete toy
primitives. -/
theorem C2_witness :
    btokSMCmdWrap wSmC2 cmdC4 (some (btokSMCtrInc (btokSMStart beltH32))) =
      .ok wireC2 ∧
    btokSMCmdUnwrap wSmC2 wireC2
      (some (btokSMCtrInc (btokSMStart beltH32))) = .ok cmdC4 :=
  C2_protected_sm_exact wSmC2 (by decide) rfl (by decide)

theorem bauthTRun_ok {p : BauthPrims} {e : BauthEnv} {m2 m4 : List Nat}
    {k : List Nat} (h : btokBAuthTRun p e m2 m4 = .ok k) :
    k = btokBAuthTStepG p e m2 m4 := by
  rw [btokBAuthTRun] at h
  cases h3 : btokBAuthTStep3 p e m2 with
  | error e1 => rw [h3, exBindErr] at h; exact absurd h (by simp)
  | ok m3 =>
    rw [h3] at h
    simp only [exBindOk] at h
    cases h5 : btokBAuthTStep5 p e m2 m4 with
    | error e2 => rw [h5, exBindErr] at h; exact absurd h (by simp)
    | ok u =>
      rw [h5] at h
      simp only [exBindOk] at h
      exact (Except.ok.inj h).symm

theorem bauthCTRun_ok {p : BauthPrims} {e : BauthEnv}
    {valF : List Nat → Bool} {m3 : List Nat} {k : List Nat}
    (h : btokBAuthCTRun p e valF m3 = .ok k) :
    k = btokBAuthCTStepG p e m3 := by
  rw [btokBAuthCTRun] at h
  cases h4 : btokBAuthCTStep4 p e valF m3 with
  | error e1 => rw [h4, exBindErr] at h; exact absurd h (by simp)
  | ok m4 =>
    rw [h4] at h
    simp only [exBindOk] at h
    exact (Except.ok.inj h).symm

theorem take_len_append (l1 l2 : List Nat) (n : Nat) (h : l1.length = n) :
    (l1 ++ l2).take n = l1 := by
  rw [← h]
  exact List.take_left _ _

theorem drop_len_append (l1 l2 : List Nat) (n : Nat) (h : l1.length = n) :
    (l1 ++ l2).drop n = l2 := by
  rw [← h]
  exact List.drop_left _ _

theorem bauthM2_take (p : BauthPrims) (e : BauthEnv)
    (hpub64 : ∀ u, (p.pubOf u).length = 64) :
    (bauthM2 p e).take 64 = p.pubOf e.ub := by
  rw [bauthM2]
  exact take_len_append _ _ _ (hpub64 _)

theorem bauthM2_drop (p : BauthPrims) (e : BauthEnv)
    (hpub64 : ∀ u, (p.pubOf u).length = 64) :
    (bauthM2 p e).drop 64 = p.tag (p.kdf0 (p.certPub e.certa))
      (e.certb ++ e.certa ++ p.pubOf e.ub) := by
  rw [bauthM2]
  exact drop_len_append _ _ _ (hpub64 _)

theorem bauthM2_length (p : BauthPrims) (e : BauthEnv)
    (hpub64 : ∀ u, (p.pubOf u).length = 64)
    (htag8 : ∀ k d, (p.tag k d).length = 8) :
    (bauthM2 p e).length = 72 := by
  rw [bauthM2]
  simp only [List.length_append, hpub64, htag8]

theorem bauthM3_take (p : BauthPrims) (e : BauthEnv) (m2 : List Nat)
    (hpub64 : ∀ u, (p.pubOf u).length = 64) :
    (bauthM3 p e m2).take 64 = p.pubOf e.ua := by
  rw [bauthM3, List.append_assoc]
  exact take_len_append _ _ _ (hpub64 _)

theorem bauthM3_tag (p : BauthPrims) (e : BauthEnv) (m2 : List Nat)
    (hpub64 : ∀ u, (p.pubOf u).length = 64)
    (htag8 : ∀ k d, (p.tag k d).length = 8) :
    ((bauthM3 p e m2).drop 64).take 8 =
      p.tag (p.dh e.ua (m2.take 64)) (m2 ++ p.pubOf e.ua) := by
  rw [bauthM3, List.append_assoc]
  rw [drop_len_append _ _ _ (hpub64 _)]
  exact take_len_append _ _ _ (htag8 _ _)

theorem bauthM3_cert (p : BauthPrims) (e : BauthEnv) (m2 : List Nat)
    (hpub64 : ∀ u, (p.pubOf u).length = 64)
    (htag8 : ∀ k d, (p.tag k d).length = 8) :
    (bauthM3 p e m2).drop 72 =
      (if e.kca then p.encC (p.dh e.ua (m2.take 64)) e.certa else []) := by
  rw [bauthM3]
  exact drop_len_append _ _ _
    (by simp only [List.length_append, hpub64, htag8])

theorem bauthM3_length (p : BauthPrims) (e : BauthEnv) (m2 : List Nat)
    (hpub64 : ∀ u, (p.pubOf u).length = 64)
    (htag8 : ∀ k d, (p.tag k d).length = 8)
    (hencClen : ∀ s x, (p.encC s x).length = x.length) :
    (bauthM3 p e m2).length = 72 + (if e.kca then e.certa.length else 0) := by
  rw [bauthM3]
  simp only [List.length_append, hpub64, htag8]
  split_ifs
  · rw [hencClen]
  · simp

/-- C1: under matched settings on both sides (same `kca`/`kcb`, level-128
parameters, the long-term keys and certificates of the environment), the
BAUTH step sequence succeeds on both endpoints and both extract the same
32-octet session key; and for any single altered octet of any transit
message (M2, M3, or M4), the two endpoints either fail or derive different
keys — stated as: there is no common key on which both runs succeed. -/
theorem C1_bauth_happy_flip (p : BauthPrims) (e : BauthEnv)
    (valF : List Nat → Bool)
    (hpub64 : ∀ u, (p.pubOf u).length = 64)
    (htag8 : ∀ k d, (p.tag k d).length = 8)
    (hdh : p.dh e.ua (p.pubOf e.ub) = p.dh e.ub (p.pubOf e.ua))
    (hinvC : ∀ s x, p.decC s (p.encC s x) = x)
    (hencClen : ∀ s x, (p.encC s x).length = x.length)
    (hval : valF e.certa = true)
    (hkdf32 : ∀ s t, (p.kdf s t).length = 32)
    (hkdfInj : ∀ s t u w, p.kdf s t = p.kdf u w → t = w) :
    (∃ k, btokBAuthTRun p e (bauthM2 p e)
        (bauthM4 p e (bauthM3 p e (bauthM2 p e))) = .ok k ∧
      btokBAuthCTRun p e valF (bauthM3 p e (bauthM2 p e)) = .ok k ∧
      k.length = 32) ∧
    (∀ j, j < (bauthM2 p e).length → ∀ v, v ≠ (bauthM2 p e).getD j 0 →
      ¬ ∃ k, btokBAuthTRun p e ((bauthM2 p e).set j v)
          (bauthM4 p e (bauthM3 p e ((bauthM2 p e).set j v))) = .ok k ∧
        btokBAuthCTRun p e valF
          (bauthM3 p e ((bauthM2 p e).set j v)) = .ok k) ∧
    (∀ j, j < (bauthM3 p e (bauthM2 p e)).length → ∀ v,
      v ≠ (bauthM3 p e (bauthM2 p e)).getD j 0 →
      ¬ ∃ k, btokBAuthTRun p e (bauthM2 p e)
          (bauthM4 p e ((bauthM3 p e (bauthM2 p e)).set j v)) = .ok k ∧
        btokBAuthCTRun p e valF
          ((bauthM3 p e (bauthM2 p e)).set j v) = .ok k) ∧
    (∀ j, j < (bauthM4 p e (bauthM3 p e (bauthM2 p e))).length → ∀ v,
      v ≠ (bauthM4 p e (bauthM3 p e (bauthM2 p e))).getD j 0 →
      ¬ ∃ k, btokBAuthTRun p e (bauthM2 p e)
          ((bauthM4 p e (bauthM3 p e (bauthM2 p e))).set j v) = .ok k ∧
        btokBAuthCTRun p e valF (bauthM3 p e (bauthM2 p e)) = .ok k) := by
  refine ⟨?_, ?_, ?_, ?_⟩
  · -- happy path
    have hs3 : btokBAuthTStep3 p e (bauthM2 p e) =
        .ok (bauthM3 p e (bauthM2 p e)) := by
      rw [btokBAuthTStep3]
      rw [if_neg (by rw [bauthM2_length p e hpub64 htag8]; omega)]
      rw [if_neg (by
        rw [bauthM2_drop p e hpub64, bauthM2_take p e hpub64]
        simp)]
    have hs4 : btokBAuthCTStep4 p e valF (bauthM3 p e (bauthM2 p e)) =
        .ok (bauthM4 p e (bauthM3 p e (bauthM2 p e))) := by
      rw [btokBAuthCTStep4]
      rw [if_neg (by
        rw [bauthM3_length p e _ hpub64 htag8 hencClen]
        omega)]
      rw [if_neg (by
        rw [bauthM3_tag p e _ hpub64 htag8, bauthM3_take p e _ hpub64,
          bauthM2_take p e hpub64, hdh]
        simp)]
      rw [if_neg (by
        rw [bauthM3_cert p e _ hpub64 htag8, bauthM3_take p e _ hpub64,
          bauthM2_take p e hpub64]
        by_cases hk : e.kca
        · rw [if_pos hk, ← hdh, hinvC, hval]
          simp
        · simp [hk])]
    have hs5 : btokBAuthTStep5 p e (bauthM2 p e)
        (bauthM4 p e (bauthM3 p e (bauthM2 p e))) = .ok () := by
      rw [btokBAuthTStep5]
      by_cases hk : e.kcb
      · rw [if_pos hk, bauthM4, if_pos hk]
        rw [if_neg (by
          rw [bauthM3_take p e _ hpub64, bauthM2_take p e hpub64, hdh]
          simp)]
      · rw [if_neg hk]
    have hkeys : btokBAuthTStepG p e (bauthM2 p e)
        (bauthM4 p e (bauthM3 p e (bauthM2 p e))) =
        btokBAuthCTStepG p e (bauthM3 p e (bauthM2 p e)) := by
      rw [btokBAuthTStepG, btokBAuthCTStepG]
      rw [bauthM3_take p e _ hpub64, bauthM2_take p e hpub64, hdh]
      by_cases hk : e.kcb
      · rw [if_pos hk]
      · rw [if_neg hk, bauthM4, if_neg hk]
    refine ⟨btokBAuthCTStepG p e (bauthM3 p e (bauthM2 p e)), ?_, ?_, ?_⟩
    · rw [btokBAuthTRun, hs3]
      simp only [exBindOk]
      rw [hs5]
      simp only [exBindOk]
      rw [hkeys]
    · rw [btokBAuthCTRun, hs4]
      simp only [exBindOk]
    · rw [btokBAuthCTStepG]
      exact hkdf32 _ _
  · -- flip in M2
    intro j hj v hv ⟨k, hT, hCT⟩
    have h1 := bauthTRun_ok hT
    have h2 := bauthCTRun_ok hCT
    rw [h1] at h2
    rw [btokBAuthTStepG, btokBAuthCTStepG] at h2
    have htr := hkdfInj _ _ _ _ h2
    simp only [List.append_assoc] at htr
    by_cases hk : e.kcb
    · rw [if_pos hk] at htr
      have h3 := List.append_cancel_right htr
      have h4 : ((bauthM2 p e).set j v).getD j 0 = v :=
        getD_set_self _ _ _ hj
      rw [h3] at h4
      exact hv h4.symm
    · rw [if_neg hk] at htr
      rw [show bauthM4 p e (bauthM3 p e ((bauthM2 p e).set j v)) = []
        from by rw [bauthM4, if_neg hk]] at htr
      simp only [List.append_nil] at htr
      have h3 := List.append_cancel_right htr
      have h4 : ((bauthM2 p e).set j v).getD j 0 = v :=
        getD_set_self _ _ _ hj
      rw [h3] at h4
      exact hv h4.symm
  · -- flip in M3
    intro j hj v hv ⟨k, hT, hCT⟩
    have h1 := bauthTRun_ok hT
    have h2 := bauthCTRun_ok hCT
    rw [h1] at h2
    rw [btokBAuthTStepG, btokBAuthCTStepG] at h2
    have htr := hkdfInj _ _ _ _ h2
    simp only [List.append_assoc] at htr
    have htr2 := List.append_cancel_left htr
    by_cases hk : e.kcb
    · rw [if_pos hk] at htr2
      have h3 := List.append_cancel_right htr2
      have h4 : ((bauthM3 p e (bauthM2 p e)).set j v).getD j 0 = v :=
        getD_set_self _ _ _ hj
      rw [← h3] at h4
      exact hv h4.symm
    · rw [if_neg hk] at htr2
      rw [show bauthM4 p e ((bauthM3 p e (bauthM2 p e)).set j v) = []
        from by rw [bauthM4, if_neg hk]] at htr2
      simp only [List.append_nil] at htr2
      have h4 : ((bauthM3 p e (bauthM2 p e)).set j v).getD j 0 = v :=
        getD_set_self _ _ _ hj
      rw [← htr2] at h4
      exact hv h4.symm
  · -- flip in M4
    intro j hj v hv ⟨k, hT, hCT⟩
    have h1 := bauthTRun_ok hT
    have h2 := bauthCTRun_ok hCT
    rw [h1] at h2
    rw [btokBAuthTStepG, btokBAuthCTStepG] at h2
    have htr := hkdfInj _ _ _ _ h2
    simp only [List.append_assoc] at htr
    have htr2 := List.append_cancel_left htr
    have htr3 := List.append_cancel_left htr2
    by_cases hk : e.kcb
    · rw [if_pos hk] at htr3
      have h4 : ((bauthM4 p e (bauthM3 p e (bauthM2 p e))).set j v).getD
          j 0 = v := getD_set_self _ _ _ hj
      rw [htr3] at h4
      exact hv h4.symm
    · rw [show bauthM4 p e (bauthM3 p e (bauthM2 p e)) = []
        from by rw [bauthM4, if_neg hk]] at hj
      exact absurd hj (by simp)

/-- C1 witness: the happy-path conjunct of the BAUTH theorem at the toy
primitives — both runs succeed with one common 32-octet key. -/
theorem C1_witness :
    ∃ k, btokBAuthTRun wBa wEnv (bauthM2 wBa wEnv)
        (bauthM4 wBa wEnv (bauthM3 wBa wEnv (bauthM2 wBa wEnv))) =
          .ok k ∧
      btokBAuthCTRun wBa wEnv (fun _ => true)
        (bauthM3 wBa wEnv (bauthM2 wBa wEnv)) = .ok k ∧
      k.length = 32 :=
  (C1_bauth_happy_flip wBa wEnv (fun _ => true)
    (fun _ => rfl) (fun _ _ => rfl) rfl (fun _ _ => rfl) (fun _ _ => rfl)
    rfl (fun _ _ => rfl)
    (fun _ t _ w h => listCode_inj (List.cons.inj h).1)).1
